import Mathlib

/-!
Shallow embedding of the SYRP-DGM ai-town simulation engine
(convex/aiTown/conversation.ts, player.ts, agent.ts, world.ts, game.ts,
main.ts, convex/engine/abstractGame.ts, convex/agent/memory.ts).

Modelling conventions:
* TypeScript `number` timestamps, trust scores and emotional values are
  embedded as `ℚ` (the source only adds, subtracts, compares and clamps
  them); 2-D world coordinates are embedded as `ℝ` because the movement
  code divides by a Euclidean (square-root) distance.
* `Date.now()` inside a method is threaded as an explicit `now : ℚ`
  parameter: the engine invokes each operation at a single wall-clock
  instant.
* A TypeScript optional field `T | undefined` becomes `Option T`.
  JavaScript truthiness tests on such fields (`if (x)`) are embedded
  precisely: `undefined`, the empty string and the number zero are falsy.
* `throw` in a method becomes `Except.error`; every throwing method of the
  source throws before mutating, so the `Except` embedding loses no
  partial-mutation behaviour.
* JS `Map`s become association lists in insertion order; `Map.get` /
  `Map.set` / `Map.delete` become `AList.get` / `AList.set` /
  `AList.remove` below.
-/

/-- Truthiness of a JS `string | undefined` value: `undefined` and the
empty string are falsy. -/
def jsTruthyS : Option String → Bool
  | none => false
  | some s => !(s == "")

/-- Truthiness of a JS `number | undefined` value: `undefined` and `0` are
falsy. -/
def jsTruthyQ : Option ℚ → Bool
  | none => false
  | some x => !(x == 0)

/-- Truthiness of a JS `boolean | undefined` value (used for the optional
`leaveConversation` flag of `agentSendMessage`). -/
def jsTruthyB : Option Bool → Bool
  | none => false
  | some b => b

namespace AList

/-- JS `Map.get`: the value stored at a key. -/
def get {α : Type} (l : List (String × α)) (k : String) : Option α :=
  match l with
  | [] => none
  | (k', v) :: t => if k' = k then some v else get t k

/-- JS `Map.set`: replace the value at an existing key in place, otherwise
append the new entry (insertion order is preserved). -/
def set {α : Type} (l : List (String × α)) (k : String) (v : α) :
    List (String × α) :=
  match l with
  | [] => [(k, v)]
  | (k', v') :: t => if k' = k then (k, v) :: t else (k', v') :: set t k v

/-- JS `Map.delete`: remove the entry at a key. -/
def remove {α : Type} (l : List (String × α)) (k : String) :
    List (String × α) :=
  match l with
  | [] => []
  | (k', v) :: t => if k' = k then remove t k else (k', v) :: remove t k

/-- Mutation of the object stored at a key (JS code mutates the object
returned by `Map.get` in place). -/
def update {α : Type} (l : List (String × α)) (k : String) (f : α → α) :
    List (String × α) :=
  match l with
  | [] => []
  | (k', v) :: t =>
    if k' = k then (k', f v) :: update t k f else (k', v) :: update t k f

end AList

/-! ## Conversation (convex/aiTown/conversation.ts) -/

/-- Status union of a conversation. -/
inductive CStatus
  | waiting
  | active
  | ended
  deriving DecidableEq, Repr

/-- The `lastMessage` record of a conversation. -/
structure LastMessage where
  author : String
  text : String
  timestamp : ℚ
  messageUuid : String
  deriving DecidableEq, Repr

/-- State of the `Conversation` class. -/
structure Conversation where
  id : String
  creator : String
  created : ℚ
  ended : Option ℚ
  lastMessage : Option LastMessage
  numMessages : ℕ
  participants : List String
  invited : List String
  status : CStatus
  currentSpeaker : Option String
  speakingUntil : Option ℚ
  inactivityTimeout : Option ℚ
  deriving DecidableEq, Repr

/-- A row of the `messages` table. -/
structure Msg where
  conversationId : String
  messageUuid : String
  author : String
  text : String
  deriving DecidableEq, Repr

namespace Conversation

/-- `Conversation.create`: note that the status is computed from the
unfiltered `invited` argument while the stored `invited` list has the
creator filtered out. -/
def create (id creator : String) (invited : List String) (now : ℚ) :
    Conversation where
  id := id
  creator := creator
  created := now
  ended := none
  lastMessage := none
  numMessages := 0
  participants := [creator]
  invited := invited.filter (fun p => p ≠ creator)
  status := if invited.length > 1 then .waiting else .active
  currentSpeaker := none
  speakingUntil := none
  inactivityTimeout := none

/-- `Conversation.acceptInvite`. -/
def acceptInvite (c : Conversation) (playerId : String) (now : ℚ) :
    Except String Conversation :=
  if playerId ∉ c.invited then
    .error ("Player " ++ playerId ++ " was not invited to this conversation")
  else
    let invited' := c.invited.filter (fun p => p ≠ playerId)
    let c' := { c with invited := invited',
                       participants := c.participants ++ [playerId] }
    if c'.invited.length = 0 ∧ c'.status = .waiting then
      .ok { c' with status := .active,
                    inactivityTimeout := some (now + 30000) }
    else
      .ok c'

/-- `Conversation.rejectInvite`. -/
def rejectInvite (c : Conversation) (playerId : String) (now : ℚ) :
    Except String Conversation :=
  if playerId ∉ c.invited then
    .error ("Player " ++ playerId ++ " was not invited to this conversation")
  else
    let c' := { c with invited := c.invited.filter (fun p => p ≠ playerId) }
    if c'.invited.length = 0 ∧ c'.participants.length = 1 then
      .ok { c' with status := .ended, ended := some now }
    else
      .ok c'

/-- `Conversation.addMessage`: validation (participant, active status,
speaking turn), then the message insert and the state update. -/
def addMessage (c : Conversation) (author text messageUuid : String)
    (now : ℚ) : Except String (Conversation × Msg) :=
  if author ∉ c.participants then
    .error ("Player " ++ author ++ " is not a participant in this conversation")
  else if c.status ≠ .active then
    .error "Conversation is not active"
  else if jsTruthyS c.currentSpeaker ∧ c.currentSpeaker ≠ some author then
    .error "It is another player's turn to speak"
  else
    let m : Msg := ⟨c.id, messageUuid, author, text⟩
    .ok ({ c with
            lastMessage := some ⟨author, text, now, messageUuid⟩,
            numMessages := c.numMessages + 1,
            currentSpeaker := some author,
            speakingUntil := some (now + 10000),
            inactivityTimeout := some (now + 60000) }, m)

/-- `Conversation.finishSpeaking`. -/
def finishSpeaking (c : Conversation) (playerId : String) (now : ℚ) :
    Except String Conversation :=
  if c.currentSpeaker ≠ some playerId then
    .error ("Player " ++ playerId ++ " is not the current speaker")
  else
    .ok { c with currentSpeaker := none, speakingUntil := none,
                 inactivityTimeout := some (now + 30000) }

/-- `Conversation.leave`. -/
def leave (c : Conversation) (playerId : String) (now : ℚ) : Conversation :=
  let c := { c with
              participants := c.participants.filter (fun p => p ≠ playerId),
              invited := c.invited.filter (fun p => p ≠ playerId) }
  let c := if c.currentSpeaker = some playerId then
             { c with currentSpeaker := none, speakingUntil := none }
           else c
  if c.participants.length = 0 then
    { c with status := .ended, ended := some now }
  else if c.participants.length = 1 then
    { c with status := .ended, ended := some now }
  else c

/-- `Conversation.tick`: only acts on `active` conversations. -/
def tick (c : Conversation) (now : ℚ) : Conversation :=
  if c.status ≠ .active then c
  else
    let c :=
      match c.speakingUntil with
      | some su =>
        if su ≠ 0 ∧ now > su then
          { c with currentSpeaker := none, speakingUntil := none }
        else c
      | none => c
    match c.inactivityTimeout with
    | some ti =>
      if ti ≠ 0 ∧ now > ti then { c with status := .ended, ended := some now }
      else c
    | none => c

/-- `Conversation.isFinished`. -/
def isFinished (c : Conversation) : Bool :=
  c.status == .ended

end Conversation

/-! ## Player (convex/aiTown/player.ts) -/

/-- A 2-D point; coordinates are idealised as real numbers. -/
abbrev Pt := ℝ × ℝ

/-- Status union of a player. -/
inductive PStatus
  | idle
  | walking
  | talking
  | thinking
  deriving DecidableEq, Repr

/-- The optional `pathfinding` record. -/
structure Pathfinding where
  destination : Pt
  path : List Pt
  currentStep : ℕ

/-- State of the `Player` class. -/
structure Player where
  id : String
  name : String
  character : String
  position : Pt
  facing : Pt
  speed : ℝ
  conversationId : Option String
  status : PStatus
  lastActivity : ℚ
  pathfinding : Option Pathfinding

namespace Player

/-- `Player.create`: default spawn at the origin, facing down, speed 1. -/
def create (id name character : String) (now : ℚ) : Player where
  id := id
  name := name
  character := character
  position := (0, 0)
  facing := (0, 1)
  speed := 1
  conversationId := none
  status := .idle
  lastActivity := now
  pathfinding := none

/-- `Player.walkTo`: straight-line pathfinding, a single-step path. -/
def walkTo (p : Player) (destination : Pt) (now : ℚ) : Player :=
  { p with pathfinding := some ⟨destination, [destination], 0⟩,
           status := .walking,
           lastActivity := now }

/-- `Player.stopWalking`. -/
def stopWalking (p : Player) (now : ℚ) : Player :=
  { p with pathfinding := none, status := .idle, lastActivity := now }

open scoped Classical in
/-- `Player.tick`: one 16 ms movement step; finally stamps `lastActivity`.
The branch conditions compare real numbers, so the definition is not
executable (the source computes them in floating point). -/
noncomputable def tick (p : Player) (now : ℚ) : Player :=
  let p1 :=
    match p.status, p.pathfinding with
    | .walking, some pf =>
      if pf.currentStep < pf.path.length then
        let target := pf.path.getD pf.currentStep (0, 0)
        let dx := target.1 - p.position.1
        let dy := target.2 - p.position.2
        let distance := Real.sqrt (dx * dx + dy * dy)
        if distance < 0.1 then
          let nextStep := pf.currentStep + 1
          if nextStep ≥ pf.path.length then
            stopWalking { p with position := pf.destination } now
          else
            { p with pathfinding := some { pf with currentStep := nextStep } }
        else
          let moveDistance := p.speed * 0.016
          { p with
              position := (p.position.1 + dx / distance * moveDistance,
                           p.position.2 + dy / distance * moveDistance),
              facing := (dx / distance, dy / distance) }
      else p
    | _, _ => p
  { p1 with lastActivity := now }

/-- `Player.joinConversation`: sets the conversation id and the `talking`
status, but the subsequent `stopWalking()` call overwrites the status
with `idle`. -/
def joinConversation (p : Player) (conversationId : String) (now : ℚ) :
    Player :=
  stopWalking { p with conversationId := some conversationId,
                       status := .talking } now

/-- `Player.leaveConversation`. -/
def leaveConversation (p : Player) (now : ℚ) : Player :=
  { p with conversationId := none, status := .idle, lastActivity := now }

end Player

/-! ## Agent (convex/aiTown/agent.ts) -/

/-- Status union of an agent (a player status plus `sleeping`). -/
inductive AStatus
  | idle
  | walking
  | talking
  | thinking
  | sleeping
  deriving DecidableEq, Repr

/-- An entry of `reputationHistory`. -/
structure ReputationEntry where
  timestamp : ℚ
  action : String
  impact : ℚ
  context : String
  deriving DecidableEq, Repr

/-- An entry of `socialConnections`. -/
structure SocialConnection where
  agentId : String
  trustLevel : ℚ
  interactionCount : ℕ
  lastInteraction : ℚ
  deriving DecidableEq, Repr

/-- The `emotionalState` record. -/
structure EmotionalState where
  happiness : ℚ
  stress : ℚ
  energy : ℚ
  sociability : ℚ
  deriving DecidableEq, Repr

/-- The optional `currentGoal` record. -/
structure Goal where
  type : String
  target : Option String
  priority : ℚ
  deadline : Option ℚ
  deriving DecidableEq, Repr

/-- State of the `Agent` class. -/
structure Agent where
  id : String
  name : String
  character : String
  position : Pt
  facing : Pt
  speed : ℝ
  conversationId : Option String
  status : AStatus
  lastActivity : ℚ
  pathfinding : Option Pathfinding
  trustScore : ℚ
  reputationHistory : List ReputationEntry
  socialConnections : List SocialConnection
  currentGoal : Option Goal
  emotionalState : EmotionalState
  lastWakeUp : ℚ
  sleepUntil : Option ℚ
  memoryImportanceThreshold : ℚ

namespace Agent

/-- `Agent.updateTrustScore`: clamp the global trust score into [0,100],
append to the reputation history (trimmed to the last 100 entries) and
couple the emotions asymmetrically by the sign of the delta. -/
def updateTrustScore (a : Agent) (delta : ℚ) (action context : String)
    (now : ℚ) : Agent :=
  let a := { a with trustScore := max 0 (min 100 (a.trustScore + delta)) }
  let hist := a.reputationHistory ++ [⟨now, action, delta, context⟩]
  let hist := if hist.length > 100 then hist.drop (hist.length - 100) else hist
  let a := { a with reputationHistory := hist }
  if delta > 0 then
    { a with emotionalState :=
        { a.emotionalState with
            happiness := min 100 (a.emotionalState.happiness + delta * 0.5),
            stress := max 0 (a.emotionalState.stress - delta * 0.3) } }
  else
    { a with emotionalState :=
        { a.emotionalState with
            stress := min 100 (a.emotionalState.stress + |delta| * 0.4),
            happiness := max 0 (a.emotionalState.happiness + delta * 0.3) } }

/-- `Agent.updateSocialConnection`: find or lazily create the per-peer
record, clamp its trust level into [0,100], bump the interaction count and
stamp the interaction time; sociability rises by 1 (capped at 100). -/
def updateSocialConnection (a : Agent) (agentId : String) (trustDelta : ℚ)
    (now : ℚ) : Agent :=
  let upd : SocialConnection → SocialConnection := fun c =>
    { c with trustLevel := max 0 (min 100 (c.trustLevel + trustDelta)),
             interactionCount := c.interactionCount + 1,
             lastInteraction := now }
  let conns :=
    if (a.socialConnections.find? (fun c => c.agentId == agentId)).isSome then
      a.socialConnections.map
        (fun c => if c.agentId = agentId then upd c else c)
    else
      a.socialConnections ++ [upd ⟨agentId, 50, 0, now⟩]
  { a with socialConnections := conns,
           emotionalState :=
             { a.emotionalState with
                 sociability := min 100 (a.emotionalState.sociability + 1) } }

/-- `Agent.shouldSleep`: low energy or more than 16 hours awake. -/
def shouldSleep (a : Agent) (now : ℚ) : Bool :=
  a.emotionalState.energy < 30 ∨ (now - a.lastWakeUp) / 3600000 > 16

/-- `Agent.goToSleep` with the default 8-hour duration. -/
def goToSleep (a : Agent) (now : ℚ) : Agent :=
  { a with status := .sleeping,
           sleepUntil := some (now + 28800000),
           emotionalState :=
             { a.emotionalState with
                 energy := min 100 (a.emotionalState.energy + 20) } }

/-- `Agent.wakeUp`. -/
def wakeUp (a : Agent) (now : ℚ) : Agent :=
  { a with status := .idle,
           sleepUntil := none,
           lastWakeUp := now,
           emotionalState :=
             { a.emotionalState with
                 energy := 100,
                 stress := max 0 (a.emotionalState.stress - 20) } }

/-- `Agent.walkTo`: a no-op while sleeping; otherwise the same
straight-line single-step path as for players. -/
def walkTo (a : Agent) (destination : Pt) (now : ℚ) : Agent :=
  if a.status = .sleeping then a
  else
    { a with pathfinding := some ⟨destination, [destination], 0⟩,
             status := .walking,
             lastActivity := now }

/-- `Agent.stopWalking`. -/
def stopWalking (a : Agent) (now : ℚ) : Agent :=
  { a with pathfinding := none, status := .idle, lastActivity := now }

/-- `Agent.joinConversation`: as for players, the `stopWalking()` call
overwrites the just-assigned `talking` status with `idle`; sociability
rises by 2. -/
def joinConversation (a : Agent) (conversationId : String) (now : ℚ) :
    Agent :=
  let a1 : Agent :=
    { a with conversationId := some conversationId, status := .talking }
  let a := stopWalking a1 now
  { a with emotionalState :=
      { a.emotionalState with
          sociability := min 100 (a.emotionalState.sociability + 2) } }

/-- `Agent.leaveConversation`. -/
def leaveConversation (a : Agent) (now : ℚ) : Agent :=
  { a with conversationId := none, status := .idle, lastActivity := now }

/-- `Agent.sendMessage`: requires only that the agent itself holds a
(truthy) conversation id; inserts the message, stamps `lastActivity`, and
optionally leaves the conversation. It never consults the conversation
object. -/
def sendMessage (a : Agent) (text messageUuid : String)
    (leaveConv : Option Bool) (now : ℚ) : Except String (Agent × Msg) :=
  match a.conversationId with
  | none => .error ("Agent " ++ a.id ++ " is not in a conversation")
  | some cid =>
    if cid = "" then .error ("Agent " ++ a.id ++ " is not in a conversation")
    else
      let m : Msg := ⟨cid, messageUuid, a.id, text⟩
      let a := { a with lastActivity := now }
      if jsTruthyB leaveConv then .ok (a.leaveConversation now, m)
      else .ok (a, m)

open scoped Classical in
/-- `Agent.tick`: sleep gating and wake-up, the sleep trigger, the same
movement step as `Player.tick`, then passive homeostasis and the
sociability decay. -/
noncomputable def tick (a : Agent) (now : ℚ) : Agent :=
  -- wake-up check (with JS truthiness on `sleepUntil`)
  let woken : Option Agent :=
    if a.status = .sleeping then
      match a.sleepUntil with
      | some su => if su ≠ 0 ∧ now ≥ su then some (a.wakeUp now) else none
      | none => none
    else some a
  match woken with
  | none => a  -- still sleeping: skip the rest of the tick
  | some a =>
    if a.shouldSleep now then a.goToSleep now
    else
      let a :=
        match a.status, a.pathfinding with
        | .walking, some pf =>
          if pf.currentStep < pf.path.length then
            let target := pf.path.getD pf.currentStep (0, 0)
            let dx := target.1 - a.position.1
            let dy := target.2 - a.position.2
            let distance := Real.sqrt (dx * dx + dy * dy)
            if distance < 0.1 then
              let nextStep := pf.currentStep + 1
              if nextStep ≥ pf.path.length then
                stopWalking { a with position := pf.destination } now
              else
                { a with pathfinding := some { pf with currentStep := nextStep } }
            else
              let moveDistance := a.speed * 0.016
              { a with
                  position := (a.position.1 + dx / distance * moveDistance,
                               a.position.2 + dy / distance * moveDistance),
                  facing := (dx / distance, dy / distance) }
          else a
        | _, _ => a
      let a := { a with emotionalState :=
        { a.emotionalState with
            energy := min 100 (a.emotionalState.energy + 0.1),
            stress := max 0 (a.emotionalState.stress - 0.05) } }
      let a :=
        if now - a.lastActivity > 60000 then
          { a with emotionalState :=
            { a.emotionalState with
                sociability := max 0 (a.emotionalState.sociability - 0.1) } }
        else a
      { a with lastActivity := now }

end Agent

/-! ## Agent memory store (convex/agent/memory.ts) -/

/-- A row of the `memories` table (the fields `cleanupMemories` reads). -/
structure MemoryDoc where
  docId : ℕ
  embeddingId : ℕ
  description : String
  importance : ℚ
  lastAccess : ℚ
  deriving DecidableEq, Repr

/-- The combined staleness score used by `cleanupMemories`:
`importance + (now - lastAccess) / 30 days`. -/
def cleanupScore (now : ℚ) (m : MemoryDoc) : ℚ :=
  m.importance + (now - m.lastAccess) / 2592000000

/-- `AgentMemory.cleanupMemories`: when the count exceeds `maxMemories`,
sort ascending by the combined score, take the overflow from the low end,
and delete only those of the taken memories whose importance is below
`minImportanceToKeep`. Returns the deleted rows and the deleted count. -/
def cleanupMemories (now : ℚ) (allMemories : List MemoryDoc)
    (maxMemories : ℕ) (minImportanceToKeep : ℚ) : List MemoryDoc × ℕ :=
  if allMemories.length ≤ maxMemories then ([], 0)
  else
    let sortedMemories := allMemories.mergeSort
      (fun a b => cleanupScore now a ≤ cleanupScore now b)
    let toDelete := sortedMemories.take (allMemories.length - maxMemories)
    let deleted := toDelete.filter (fun m => m.importance < minImportanceToKeep)
    (deleted, deleted.length)

/-! ## World (convex/aiTown/world.ts) -/

/-- State of the `World` class: the id counter, the last-viewed stamp and
the three entity maps. -/
structure World where
  nextId : ℕ
  lastViewed : ℚ
  players : List (String × Player)
  agents : List (String × Agent)
  conversations : List (String × Conversation)

namespace World

/-- `World.allocId`: return the counter stringified and increment it. -/
def allocId (w : World) : String × World :=
  (toString w.nextId, { w with nextId := w.nextId + 1 })

/-- The `conversationId` of the entity found by the
`players.get(id) || agents.get(id)` lookup (`none` when the id is
unknown). -/
def entityConversationId (w : World) (id : String) : Option (Option String) :=
  match AList.get w.players id with
  | some p => some p.conversationId
  | none => (AList.get w.agents id).map (fun a => a.conversationId)

/-- Assignment `entity.conversationId = v` through the same
player-first-then-agent lookup. -/
def setEntityConversationId (w : World) (id : String) (v : Option String) :
    World :=
  if (AList.get w.players id).isSome then
    { w with players :=
        AList.update w.players id (fun p => { p with conversationId := v }) }
  else if (AList.get w.agents id).isSome then
    { w with agents :=
        AList.update w.agents id (fun a => { a with conversationId := v }) }
  else w

/-- `World.addPlayer` (the description-table insert is not modelled). -/
def addPlayer (w : World) (name character : String) (now : ℚ) :
    Player × World :=
  let (playerId, w) := w.allocId
  let player := Player.create playerId name character now
  (player, { w with players := AList.set w.players playerId player })

/-- `World.removePlayer`: leave any active conversation first, then delete
the player from the live map (archiving is not modelled). -/
def removePlayer (w : World) (playerId : String) (now : ℚ) : World :=
  match AList.get w.players playerId with
  | none => w
  | some player =>
    let w :=
      match player.conversationId with
      | some cid =>
        match AList.get w.conversations cid with
        | some conv =>
          { w with conversations :=
              AList.update w.conversations cid (fun _ => conv.leave playerId now) }
        | none => w
      | none => w
    { w with players := AList.remove w.players playerId }

/-- `World.startConversation`: both participants must exist and be free;
allocates an id and calls `Conversation.create` with
`[creatorId, inviteeId]` as the invite list; then assigns both parties'
`conversationId`. -/
def startConversation (w : World) (creatorId inviteeId : String) (now : ℚ) :
    Except String (World × Conversation) :=
  match w.entityConversationId creatorId, w.entityConversationId inviteeId with
  | none, _ => .error "One or both participants not found"
  | _, none => .error "One or both participants not found"
  | some creatorConv, some inviteeConv =>
    if jsTruthyS creatorConv ∨ jsTruthyS inviteeConv then
      .error "One or both participants are already in a conversation"
    else
      let (conversationId, w) := w.allocId
      let conversation :=
        Conversation.create conversationId creatorId [creatorId, inviteeId] now
      let w := { w with conversations :=
                  AList.set w.conversations conversationId conversation }
      let w := w.setEntityConversationId creatorId (some conversationId)
      let w := w.setEntityConversationId inviteeId (some conversationId)
      .ok (w, conversation)

/-- `World.endConversation`: clear `conversationId` on every (remaining)
participant, archive (status `ended` with an end stamp) and remove the
conversation from the live map. A no-op when the id is absent. -/
def endConversation (w : World) (conversationId : String) (_now : ℚ) : World :=
  match AList.get w.conversations conversationId with
  | none => w
  | some conversation =>
    let w := conversation.participants.foldl
      (fun w pid => w.setEntityConversationId pid none) w
    { w with conversations := AList.remove w.conversations conversationId }

/-- One step of the conversation loop inside `World.tick`: tick the
conversation stored at a key and end it when its own tick reports it
finished. -/
noncomputable def tickConversationStep (now : ℚ) (w : World) (cid : String) :
    World :=
  match AList.get w.conversations cid with
  | none => w
  | some conversation =>
    let c' := conversation.tick now
    let w := { w with conversations :=
                AList.update w.conversations cid (fun _ => c') }
    if c'.isFinished then w.endConversation cid now else w

/-- `World.tick`: tick every player, then every agent, then every
conversation (ending the finished ones), then stamp `lastViewed`. -/
noncomputable def tick (w : World) (now : ℚ) : World :=
  let w := { w with players :=
              w.players.map (fun (e : String × Player) => (e.1, Player.tick e.2 now)) }
  let w := { w with agents :=
              w.agents.map (fun (e : String × Agent) => (e.1, Agent.tick e.2 now)) }
  let keys := w.conversations.map (fun (e : String × Conversation) => e.1)
  let w := keys.foldl (tickConversationStep now) w
  { w with lastViewed := now }

/-- `World.restart`: clear the live maps and reset the id counter (the
archived-record deletions are not modelled). -/
def restart (w : World) (now : ℚ) : World :=
  { w with players := [], agents := [], conversations := [],
           nextId := 0, lastViewed := now }

end World

/-! ## Game and engine loop (convex/aiTown/game.ts, main.ts,
convex/engine/abstractGame.ts) -/

/-- The typed argument payloads of the commands of the input queue
(`Game.inputValidators`); `unknown` stands for a name with no validator. -/
inductive InputArgs
  | join (name character description : String)
  | leaveWorld (playerId : String)
  | sendMessage (playerId text messageUuid : String)
  | startConversation (playerId invitee : String)
  | acceptInvite (playerId conversationId : String)
  | rejectInvite (playerId conversationId : String)
  | leaveConversation (playerId conversationId : String)
  | finishSpeaking (playerId conversationId : String)
  | walkTo (playerId : String) (destination : Pt)
  | agentSendMessage (agentId text messageUuid : String)
      (leaveConversation : Option Bool)
  | agentWakeUp (agentId : String)
  | stop
  | start
  | restart
  | unknown (name : String)

/-- The result objects returned by the individual input handlers. -/
inductive GameValue
  | joined (playerId : String)
  | leftWorld (playerId : String)
  | messageSent
  | conversationStarted (conversationId : String)
  | accepted (conversationId : String)
  | rejected (conversationId : String)
  | leftConversation (conversationId : String)
  | finishedSpeaking (conversationId : String)
  | walking (playerId : String)
  | agentMessageSent (agentId : String)
  | agentAwake (agentId : String)
  | stopped
  | started
  | restarted
  deriving DecidableEq, Repr

/-- A `returnValue` written back to an input record: `{kind:'ok', value}`
(the value is `null` when the batch produced no outputs) or
`{kind:'error', message}`. -/
inductive RetVal
  | ok (value : Option (List GameValue))
  | error (message : String)
  deriving DecidableEq, Repr

/-- A row of the `inputs` table. -/
structure InputRec where
  number : ℤ
  args : InputArgs
  returnValue : Option RetVal

/-- The engine record (convex/engine/schema.ts). -/
structure EngineRec where
  running : Bool
  currentTime : ℚ
  processedInputNumber : Option ℤ
  generationNumber : ℕ
  deriving DecidableEq, Repr

/-- `AbstractGame.validateInput`: every known command has a validator and
the argument payloads are well-typed by construction, so only an unknown
name fails validation. -/
def validateInput : InputArgs → Bool
  | .unknown _ => false
  | _ => true

/-- `Game.handleInput`: dispatch one command against the world; errors are
the thrown exceptions of the handlers. Returns the updated engine and
world, the messages inserted into the `messages` table and the handler's
result object. -/
def handleInput (e : EngineRec) (w : World) (args : InputArgs) (now : ℚ) :
    Except String (EngineRec × World × List Msg × GameValue) :=
  match args with
  | .join name character _description =>
    let (player, w) := w.addPlayer name character now
    .ok (e, w, [], .joined player.id)
  | .leaveWorld playerId =>
    .ok (e, w.removePlayer playerId now, [], .leftWorld playerId)
  | .sendMessage playerId text messageUuid =>
    match AList.get w.players playerId with
    | none => .error ("Player " ++ playerId ++ " not found")
    | some player =>
      match player.conversationId with
      | none => .error ("Player " ++ playerId ++ " is not in a conversation")
      | some cid =>
        if cid = "" then
          .error ("Player " ++ playerId ++ " is not in a conversation")
        else
          match AList.get w.conversations cid with
          | none => .error ("Conversation " ++ cid ++ " not found")
          | some conversation =>
            match conversation.addMessage playerId text messageUuid now with
            | .error msg => .error msg
            | .ok (c', m) =>
              let w := { w with conversations :=
                          AList.update w.conversations cid (fun _ => c') }
              .ok (e, w, [m], .messageSent)
  | .startConversation playerId invitee =>
    match w.startConversation playerId invitee now with
    | .error msg => .error msg
    | .ok (w, conversation) =>
      .ok (e, w, [], .conversationStarted conversation.id)
  | .acceptInvite playerId conversationId =>
    match AList.get w.conversations conversationId with
    | none => .error ("Conversation " ++ conversationId ++ " not found")
    | some conversation =>
      match conversation.acceptInvite playerId now with
      | .error msg => .error msg
      | .ok c' =>
        let w := { w with conversations :=
                    AList.update w.conversations conversationId (fun _ => c') }
        .ok (e, w, [], .accepted conversationId)
  | .rejectInvite playerId conversationId =>
    match AList.get w.conversations conversationId with
    | none => .error ("Conversation " ++ conversationId ++ " not found")
    | some conversation =>
      match conversation.rejectInvite playerId now with
      | .error msg => .error msg
      | .ok c' =>
        let w := { w with conversations :=
                    AList.update w.conversations conversationId (fun _ => c') }
        .ok (e, w, [], .rejected conversationId)
  | .leaveConversation playerId conversationId =>
    match AList.get w.conversations conversationId with
    | none => .error ("Conversation " ++ conversationId ++ " not found")
    | some conversation =>
      let c' := conversation.leave playerId now
      let w := { w with conversations :=
                  AList.update w.conversations conversationId (fun _ => c') }
      .ok (e, w, [], .leftConversation conversationId)
  | .finishSpeaking playerId conversationId =>
    match AList.get w.conversations conversationId with
    | none => .error ("Conversation " ++ conversationId ++ " not found")
    | some conversation =>
      match conversation.finishSpeaking playerId now with
      | .error msg => .error msg
      | .ok c' =>
        let w := { w with conversations :=
                    AList.update w.conversations conversationId (fun _ => c') }
        .ok (e, w, [], .finishedSpeaking conversationId)
  | .walkTo playerId destination =>
    match AList.get w.players playerId with
    | none => .error ("Player " ++ playerId ++ " not found")
    | some player =>
      let p' := player.walkTo destination now
      let w := { w with players :=
                  AList.update w.players playerId (fun _ => p') }
      .ok (e, w, [], .walking playerId)
  | .agentSendMessage agentId text messageUuid leaveConv =>
    match AList.get w.agents agentId with
    | none => .error ("Agent " ++ agentId ++ " not found")
    | some agent =>
      match agent.sendMessage text messageUuid leaveConv now with
      | .error msg => .error msg
      | .ok (a', m) =>
        let w := { w with agents :=
                    AList.update w.agents agentId (fun _ => a') }
        .ok (e, w, [m], .agentMessageSent agentId)
  | .agentWakeUp agentId =>
    match AList.get w.agents agentId with
    | none => .error ("Agent " ++ agentId ++ " not found")
    | some agent =>
      let w := { w with agents :=
                  AList.update w.agents agentId (fun _ => agent.wakeUp now) }
      .ok (e, w, [], .agentAwake agentId)
  | .stop => .ok ({ e with running := false }, w, [], .stopped)
  | .start => .ok ({ e with running := true }, w, [], .started)
  | .restart =>
    let w := w.restart now
    let e := { e with generationNumber := e.generationNumber + 1 }
    .ok (e, w, [], .restarted)
  | .unknown name => .error ("Unknown input: " ++ name)

/-- `AbstractGame.processInput`: validation then the dispatched handler,
with every thrown error caught and turned into a
`{success:false, error}` result (the step never crashes). -/
def processInput (e : EngineRec) (w : World) (args : InputArgs) (now : ℚ) :
    EngineRec × World × List Msg × Except String GameValue :=
  if !validateInput args then
    (e, w, [], .error "Input validation failed")
  else
    match handleInput e w args now with
    | .ok (e', w', msgs, v) => (e', w', msgs, .ok v)
    | .error msg => (e, w, [], .error msg)

/-- The input-processing loop of `Game.tick`: process the batch in order,
collecting only the successful results into `outputs`. -/
def processInputs (e : EngineRec) (w : World) (batch : List InputArgs)
    (now : ℚ) : EngineRec × World × List Msg × List GameValue :=
  match batch with
  | [] => (e, w, [], [])
  | args :: rest =>
    let (e, w, msgs, r) := processInput e w args now
    let (e', w', msgs', outs) := processInputs e w rest now
    (e', w', msgs ++ msgs',
     match r with
     | .ok v => v :: outs
     | .error _ => outs)

/-- `Game.tick`: process the batch, then run the world simulation step. -/
noncomputable def gameTick (e : EngineRec) (w : World)
    (batch : List InputArgs) (now : ℚ) :
    EngineRec × World × List Msg × List GameValue :=
  let (e, w, msgs, outputs) := processInputs e w batch now
  (e, w.tick now, msgs, outputs)

/-- The `tick` mutation of `main.ts`: select the unprocessed inputs (up to
100), run `Game.tick`, then mark the batch processed and write every
batch record's `returnValue` as `{kind:'ok', value: outputs || null}` —
the same aggregated value for every record of the batch, regardless of
each command's own success or failure. -/
noncomputable def mainTick (e : EngineRec) (records : List InputRec)
    (w : World) (now : ℚ) : EngineRec × List InputRec × World :=
  if !e.running then (e, records, w)
  else
    let lastProcessed := e.processedInputNumber.getD (-1)
    let inputs := (records.filter (fun r => r.number > lastProcessed)).take 100
    let (e, w, _msgs, outputs) := gameTick e w (inputs.map (fun r => r.args)) now
    if inputs.length > 0 then
      let lastInput := inputs.getLastD ⟨0, .stop, none⟩
      let e := { e with processedInputNumber := some lastInput.number }
      let value : RetVal :=
        .ok (if outputs.length = 0 then none else some outputs)
      let records := records.map (fun r =>
        if (inputs.map (fun i => i.number)).contains r.number then
          { r with returnValue := some value }
        else r)
      (e, records, w)
    else (e, records, w)

/-! ## Derived definitions used by the verification statements -/

/-- One call of the trust/reputation update API (claim C5 quantifies over
arbitrary finite sequences of these). -/
inductive TrustOp
  | updateTrust (delta : ℚ) (action context : String) (now : ℚ)
  | updateSocial (agentId : String) (trustDelta : ℚ) (now : ℚ)

/-- Apply one trust operation. -/
def applyTrustOp (a : Agent) : TrustOp → Agent
  | .updateTrust delta action context now =>
      a.updateTrustScore delta action context now
  | .updateSocial agentId trustDelta now =>
      a.updateSocialConnection agentId trustDelta now

/-- Apply a finite sequence of trust operations in order. -/
def applyTrustOps (a : Agent) (ops : List TrustOp) : Agent :=
  ops.foldl applyTrustOp a

/-- The bounds the spec asserts: global trust score, every social
connection's trust level and every emotional-state field in [0, 100]. -/
def Agent.trustBounded (a : Agent) : Prop :=
  0 ≤ a.trustScore ∧ a.trustScore ≤ 100 ∧
  (∀ c ∈ a.socialConnections, 0 ≤ c.trustLevel ∧ c.trustLevel ≤ 100) ∧
  0 ≤ a.emotionalState.happiness ∧ a.emotionalState.happiness ≤ 100 ∧
  0 ≤ a.emotionalState.stress ∧ a.emotionalState.stress ≤ 100 ∧
  0 ≤ a.emotionalState.energy ∧ a.emotionalState.energy ≤ 100 ∧
  0 ≤ a.emotionalState.sociability ∧ a.emotionalState.sociability ≤ 100

/-- The entity-membership invariant of the spec: `conversationId` is set
iff the status is `talking`, and a set `conversationId` points to a live
conversation listing the entity among its participants. -/
def World.entityInvariant (w : World) : Prop :=
  (∀ pid p, AList.get w.players pid = some p →
     (p.conversationId.isSome ↔ p.status = .talking) ∧
     (∀ cid, p.conversationId = some cid →
        ∃ c, AList.get w.conversations cid = some c ∧ pid ∈ c.participants)) ∧
  (∀ aid a, AList.get w.agents aid = some a →
     (a.conversationId.isSome ↔ a.status = .talking) ∧
     (∀ cid, a.conversationId = some cid →
        ∃ c, AList.get w.conversations cid = some c ∧ aid ∈ c.participants))

/-- Repeated player ticks, with an arbitrary time stamp for each tick. -/
noncomputable def iterTicks (p : Player) (times : ℕ → ℚ) : ℕ → Player
  | 0 => p
  | k + 1 => Player.tick (iterTicks p times k) (times k)

/-- Repeated agent ticks, with an arbitrary time stamp for each tick. -/
noncomputable def iterTicksAgent (a : Agent) (times : ℕ → ℚ) : ℕ → Agent
  | 0 => a
  | k + 1 => Agent.tick (iterTicksAgent a times k) (times k)

/-- Straight-line distance between two points, as the movement code
computes it. -/
noncomputable def distPt (a b : Pt) : ℝ :=
  Real.sqrt ((b.1 - a.1) * (b.1 - a.1) + (b.2 - a.2) * (b.2 - a.2))

/-- The point on the segment from `x0` to `d` at remaining distance `r`
from `d`, when the full distance is `D`. -/
noncomputable def ptAt (x0 d : Pt) (D r : ℝ) : Pt :=
  (d.1 - r / D * (d.1 - x0.1), d.2 - r / D * (d.2 - x0.2))

/-- The walking state an entity is in between `walkTo(d)` and arrival:
status `walking`, the single-step path `[d]` at step 0, unit speed, and
the given position. -/
def WalkSt (d x : Pt) (s : Player) : Prop :=
  s.status = .walking ∧ s.pathfinding = some ⟨d, [d], 0⟩ ∧ s.speed = 1 ∧
  s.position = x

/-! ## Concrete fixtures for witnesses and counterexamples -/

/-- A player with id "0" standing free at the origin. -/
noncomputable def pA : Player := Player.create "0" "Alice" "f1" 0

/-- A player with id "1" standing free at the origin. -/
noncomputable def pB : Player := Player.create "1" "Bob" "f2" 0

/-- A world holding the two free players and no conversations. -/
noncomputable def w1c : World :=
  ⟨2, 0, [("0", pA), ("1", pB)], [], []⟩

/-- An active two-party conversation with nobody currently speaking. -/
def c4conv : Conversation :=
  ⟨"5", "0", 0, none, none, 0, ["0", "1"], [], .active, none, none, none⟩

/-- A waiting conversation (creator "0" waiting on invitee "1"). -/
def cW : Conversation :=
  ⟨"2", "0", 0, none, none, 0, ["0"], ["1"], .waiting, none, none, none⟩

/-- A world holding only the waiting conversation `cW`. -/
noncomputable def wW : World := ⟨3, 0, [], [], [("2", cW)]⟩

/-- A neutral emotional state within bounds. -/
def es0 : EmotionalState := ⟨50, 20, 80, 60⟩

/-- A free agent with id "7", in bounds, awake, currently talking in
conversation "2". -/
noncomputable def agent7 : Agent :=
  ⟨"7", "Eve", "f3", (0, 0), (0, 1), 1, some "2", .talking, 0, none,
   50, [], [], none, es0, 0, none, 5⟩

/-- A free, awake, idle agent with id "8" whose energy is below 30. -/
noncomputable def agent8 : Agent :=
  ⟨"8", "Mallory", "f4", (0, 0), (0, 1), 1, none, .idle, 0, none,
   50, [], [], none, ⟨50, 20, 25, 60⟩, 0, none, 5⟩

/-- The low-energy agent `agent8` one tick after being told to walk to
(1, 0): the sleep trigger fired before any movement, with the
pathfinding record still in place. -/
noncomputable def agent8Slept : Agent :=
  ⟨"8", "Mallory", "f4", (0, 0), (0, 1), 1, none, .sleeping, 0,
   some ⟨(1, 0), [(1, 0)], 0⟩, 50, [], [], none, ⟨50, 20, 45, 60⟩, 0,
   some 28800000, 5⟩

/-- A world holding only the talking agent `agent7`. -/
noncomputable def w9 : World := ⟨9, 0, [], [("7", agent7)], []⟩

/-- An engine record that is running and has processed nothing yet. -/
def e2 : EngineRec := ⟨true, 0, none, 0⟩

/-- An empty world. -/
def w2empty : World := ⟨0, 0, [], [], []⟩

/-- An input record carrying a command whose handler must fail (player
"99" does not exist). -/
def rec2 : InputRec := ⟨0, .sendMessage "99" "hi" "u1", none⟩

/-- A second input record whose command succeeds (a join). -/
def rec2b : InputRec := ⟨1, .join "Nia" "f6" "newcomer", none⟩

/-- Two memory rows, one unimportant and stale, one important. -/
def mems8 : List MemoryDoc :=
  [⟨1, 11, "m1", 1, 0⟩, ⟨2, 12, "m2", 9, 0⟩]

/-- The world after `startConversation(w1c, "0", "1")` (the success
branch's updated world). -/
noncomputable def w1cAfter : World :=
  match World.startConversation w1c "0" "1" 1000 with
  | .ok (w', _) => w'
  | .error _ => w1c

/-- A player who has just been told to walk from the origin to (1, 0). -/
noncomputable def p7 : Player := (Player.create "3" "Walker" "f5" 0).walkTo (1, 0) 0

/-! ## Theorems -/

/-- C4: `Conversation.addMessage(author, text, uuid)` fails (with an
error) exactly when the author is not in `participants`, or the status is
not `active`, or `currentSpeaker` is set to a different id; when none of
these hold it succeeds, sets `lastMessage` to the new message, increments
`numMessages` by one, sets `currentSpeaker := author`,
`speakingUntil := now + 10 s` and `inactivityTimeout := now + 60 s`, and
afterwards any other id's `addMessage` is rejected until `finishSpeaking`
or the 10-second lapse. The two disequality hypotheses state that neither
the author nor the stored speaker is the empty string — ids allocated by
the world are decimal strings, and the source's JS truthiness test would
treat an empty-string speaker as "nobody speaking". -/
theorem addMessage_turn_enforcement
    (c : Conversation) (author text messageUuid : String) (now : ℚ)
    (hsp : c.currentSpeaker ≠ some "") (ha : author ≠ "") :
    ((∃ e, c.addMessage author text messageUuid now = .error e) ↔
      author ∉ c.participants ∨ c.status ≠ .active ∨
        (∃ s, c.currentSpeaker = some s ∧ s ≠ author)) ∧
    (∀ c' m, c.addMessage author text messageUuid now = .ok (c', m) →
      c' = { c with
              lastMessage := some ⟨author, text, now, messageUuid⟩,
              numMessages := c.numMessages + 1,
              currentSpeaker := some author,
              speakingUntil := some (now + 10000),
              inactivityTimeout := some (now + 60000) } ∧
      m = ⟨c.id, messageUuid, author, text⟩ ∧
      ∀ b text2 uuid2 now2, b ≠ author →
        ∃ e, c'.addMessage b text2 uuid2 now2 = .error e) := by
  have hrej : ∀ c' : Conversation, c'.participants = c.participants →
      c'.status = .active → c'.currentSpeaker = some author →
      ∀ b text2 uuid2 now2, b ≠ author →
      ∃ e, Conversation.addMessage c' b text2 uuid2 now2 = .error e := by
    intro c' hpart hst hspk b text2 uuid2 now2 hb
    by_cases hbp : b ∈ c.participants
    · refine ⟨"It is another player's turn to speak", ?_⟩
      rw [Conversation.addMessage, hpart, hst, hspk]
      rw [if_neg (by simpa using hbp), if_neg (by simp)]
      rw [if_pos]
      refine ⟨by simpa [jsTruthyS] using ha, ?_⟩
      simpa using fun h => hb h.symm
    · refine ⟨"Player " ++ b ++ " is not a participant in this conversation", ?_⟩
      rw [Conversation.addMessage, hpart, if_pos (by simpa using hbp)]
  by_cases h1 : author ∈ c.participants
  · by_cases h2 : c.status = .active
    · cases hcs : c.currentSpeaker with
      | none =>
        constructor
        · simp [Conversation.addMessage, h1, h2, jsTruthyS, hcs]
        · intro c' m hok
          simp [Conversation.addMessage, h1, h2, jsTruthyS, hcs] at hok
          obtain ⟨hc', hm⟩ := hok
          refine ⟨?_, hm.symm, ?_⟩
          · rw [← hc', h2]
          · exact fun b t2 u2 n2 hb =>
              hrej c' (by rw [← hc']) (by rw [← hc']) (by rw [← hc']) b t2 u2 n2 hb
      | some s =>
        have hs0 : s ≠ "" := fun h => hsp (h ▸ hcs)
        by_cases hs : s = author
        · constructor
          · simp [Conversation.addMessage, h1, h2, jsTruthyS, hcs, hs]
          · intro c' m hok
            simp [Conversation.addMessage, h1, h2, jsTruthyS, hcs, hs] at hok
            obtain ⟨hc', hm⟩ := hok
            refine ⟨?_, hm.symm, ?_⟩
            · rw [← hc', h2]
            · exact fun b t2 u2 n2 hb =>
                hrej c' (by rw [← hc']) (by rw [← hc']) (by rw [← hc']) b t2 u2 n2 hb
        · constructor
          · simp [Conversation.addMessage, h1, h2, jsTruthyS, hcs, hs0, hs]
          · intro c' m hok
            simp [Conversation.addMessage, h1, h2, jsTruthyS, hcs, hs0, hs] at hok
    · constructor
      · simp [Conversation.addMessage, h1, h2]
      · intro c' m hok
        simp [Conversation.addMessage, h1, h2] at hok
  · constructor
    · simp [Conversation.addMessage, h1]
    · intro c' m hok
      simp [Conversation.addMessage, h1] at hok

/-- Witness for C4 at a concrete conversation: with "1" currently
speaking, player "0"'s message is rejected. -/
theorem addMessage_turn_enforcement_witness :
    ∃ e, Conversation.addMessage { c4conv with currentSpeaker := some "1" }
      "0" "hi" "u1" 1000 = .error e := by
  have h := addMessage_turn_enforcement
    { c4conv with currentSpeaker := some "1" } "0" "hi" "u1" 1000
    (by decide) (by decide)
  exact h.1.mpr (Or.inr (Or.inr ⟨"1", rfl, by decide⟩))

theorem AList.get_update_eq {α : Type} (l : List (String × α)) (k : String)
    (f : α → α) : AList.get (AList.update l k f) k = (AList.get l k).map f := by
  induction l with
  | nil => rfl
  | cons e t ih =>
    obtain ⟨k', v⟩ := e
    by_cases h : k' = k
    · subst h
      simp [AList.update, AList.get]
    · simp [AList.update, AList.get, h, ih]

theorem AList.get_update_ne {α : Type} (l : List (String × α)) (k k2 : String)
    (f : α → α) (h : k2 ≠ k) :
    AList.get (AList.update l k f) k2 = AList.get l k2 := by
  induction l with
  | nil => rfl
  | cons e t ih =>
    obtain ⟨k', v⟩ := e
    by_cases hk : k' = k
    · subst hk
      have hne : ¬ k' = k2 := fun hh => h hh.symm
      simp [AList.update, AList.get, hne, ih]
    · by_cases hk2 : k' = k2
      · simp [AList.update, AList.get, hk, hk2, h, ih]
      · simp [AList.update, AList.get, hk, hk2, ih]

theorem AList.get_remove_ne {α : Type} (l : List (String × α)) (k k2 : String)
    (h : k2 ≠ k) : AList.get (AList.remove l k) k2 = AList.get l k2 := by
  induction l with
  | nil => rfl
  | cons e t ih =>
    obtain ⟨k', v⟩ := e
    by_cases hk : k' = k
    · subst hk
      have hne : ¬ k' = k2 := fun hh => h hh.symm
      simp [AList.remove, AList.get, hne, ih]
    · by_cases hk2 : k' = k2
      · simp [AList.remove, AList.get, hk, hk2, h, ih]
      · simp [AList.remove, AList.get, hk, hk2, ih]

theorem World.setEntityConversationId_conversations (w : World) (id : String)
    (v : Option String) :
    (w.setEntityConversationId id v).conversations = w.conversations := by
  rw [World.setEntityConversationId]
  split_ifs <;> rfl

theorem World.clearParticipants_conversations (w : World) (ps : List String) :
    (ps.foldl (fun w pid => World.setEntityConversationId w pid none) w).conversations
      = w.conversations := by
  induction ps generalizing w with
  | nil => rfl
  | cons p t ih =>
    rw [List.foldl_cons, ih, World.setEntityConversationId_conversations]

theorem World.endConversation_get_ne (w : World) (k : String) (now : ℚ)
    (cid : String) (h : cid ≠ k) :
    AList.get (w.endConversation k now).conversations cid =
      AList.get w.conversations cid := by
  rw [World.endConversation]
  cases hget : AList.get w.conversations k with
  | none => rfl
  | some conv =>
    simp only
    rw [AList.get_remove_ne _ _ _ h, World.clearParticipants_conversations]

theorem Conversation.tick_nonactive (c : Conversation) (now : ℚ)
    (h : c.status ≠ .active) : c.tick now = c := by
  simp [Conversation.tick, h]

theorem World.tickConversationStep_preserves_waiting (now : ℚ) (w : World)
    (k cid : String) (c : Conversation)
    (hc : AList.get w.conversations cid = some c) (hw : c.status = .waiting) :
    AList.get (World.tickConversationStep now w k).conversations cid = some c := by
  rw [World.tickConversationStep]
  cases hget : AList.get w.conversations k with
  | none => exact hc
  | some conv =>
    by_cases hkc : cid = k
    · subst hkc
      have hcv : conv = c := by rw [hget] at hc; exact Option.some_inj.mp hc
      subst hcv
      have htick : conv.tick now = conv :=
        Conversation.tick_nonactive conv now (by rw [hw]; simp)
      have hfin : conv.isFinished = false := by
        simp [Conversation.isFinished, hw]
      simp only [htick, hfin, if_neg]
      simp [AList.get_update_eq, hc]
    · have hupd : AList.get
          (AList.update w.conversations k (fun _ => conv.tick now)) cid = some c := by
        rw [AList.get_update_ne _ _ _ _ hkc]; exact hc
      by_cases hfin : (conv.tick now).isFinished
      · simp only [hfin, if_true, if_pos]
        rw [World.endConversation_get_ne _ _ _ _ hkc]
        exact hupd
      · simpa [hfin] using hupd

theorem World.foldTick_preserves_waiting (now : ℚ) (keys : List String)
    (w : World) (cid : String) (c : Conversation)
    (hc : AList.get w.conversations cid = some c) (hw : c.status = .waiting) :
    AList.get ((keys.foldl (World.tickConversationStep now) w)).conversations cid
      = some c := by
  induction keys generalizing w with
  | nil => exact hc
  | cons k t ih =>
    exact ih (World.tickConversationStep now w k)
      (World.tickConversationStep_preserves_waiting now w k cid c hc hw)

/-- C10: the passage of time never changes a `waiting` conversation:
`Conversation.tick` leaves every non-`active` conversation unchanged for
every `now`; `World.tick` keeps a `waiting` conversation in the live map,
unchanged (in particular no invite timeout ends it); and the only
conversation operations besides `acceptInvite`, `rejectInvite` and
`leave` — namely `addMessage`, `finishSpeaking` and `tick` — never move a
conversation out of the `waiting` status (`addMessage` always errors on a
`waiting` conversation). -/
theorem waiting_conversation_unchanged_by_time :
    (∀ (c : Conversation) (now : ℚ), c.status ≠ .active → c.tick now = c) ∧
    (∀ (w : World) (now : ℚ) (cid : String) (c : Conversation),
      AList.get w.conversations cid = some c → c.status = .waiting →
      AList.get (w.tick now).conversations cid = some c) ∧
    (∀ (c : Conversation) (author text uuid : String) (now : ℚ),
      c.status = .waiting →
      (∃ e, c.addMessage author text uuid now = .error e) ∧
      (∀ pid c', c.finishSpeaking pid now = .ok c' → c'.status = .waiting)) := by
  refine ⟨fun c now h => Conversation.tick_nonactive c now h, ?_, ?_⟩
  · intro w now cid c hc hw
    rw [World.tick]
    simp only
    exact World.foldTick_preserves_waiting now _ _ cid c hc hw
  · intro c author text uuid now hw
    constructor
    · by_cases hp : author ∈ c.participants
      · exact ⟨"Conversation is not active",
          by simp [Conversation.addMessage, hp, hw]⟩
      · exact ⟨"Player " ++ author ++ " is not a participant in this conversation",
          by simp [Conversation.addMessage, hp]⟩
    · intro pid c' hok
      rw [Conversation.finishSpeaking] at hok
      by_cases hsp : c.currentSpeaker = some pid
      · rw [if_neg (by simp [hsp])] at hok
        cases hok
        exact hw
      · rw [if_pos (by simpa using hsp)] at hok
        cases hok

/-- Witness for C10 at a concrete world: a waiting conversation survives a
world tick far in the future, unchanged. -/
theorem waiting_conversation_unchanged_by_time_witness :
    AList.get (World.tick wW 99999999).conversations "2" = some cW :=
  waiting_conversation_unchanged_by_time.2.1 wW 99999999 "2" cW rfl rfl

theorem clamp_mem (x : ℚ) :
    0 ≤ max 0 (min 100 x) ∧ max 0 (min 100 x) ≤ 100 :=
  ⟨le_max_left _ _, max_le (by norm_num) (min_le_left _ _)⟩

theorem Agent.updateTrustScore_bounded (a : Agent) (delta : ℚ)
    (action context : String) (now : ℚ) (h : a.trustBounded) :
    (a.updateTrustScore delta action context now).trustBounded := by
  obtain ⟨ht0, ht1, hsc, hh0, hh1, hs0, hs1, he0, he1, hso0, hso1⟩ := h
  unfold Agent.updateTrustScore Agent.trustBounded
  dsimp only
  split_ifs with h1 h2 h2
  all_goals
    refine ⟨le_max_left _ _, max_le (by norm_num) (min_le_left _ _), hsc,
      ?_, ?_, ?_, ?_, he0, he1, hso0, hso1⟩
  all_goals
    first
      | exact min_le_left _ _
      | exact le_max_left _ _
      | exact le_min (by norm_num) (by nlinarith [abs_nonneg delta])
      | exact max_le (by norm_num) (by nlinarith [abs_nonneg delta])

theorem Agent.updateSocialConnection_bounded (a : Agent) (agentId : String)
    (trustDelta : ℚ) (now : ℚ) (h : a.trustBounded) :
    (a.updateSocialConnection agentId trustDelta now).trustBounded := by
  obtain ⟨ht0, ht1, hsc, hh0, hh1, hs0, hs1, he0, he1, hso0, hso1⟩ := h
  unfold Agent.updateSocialConnection
  dsimp only
  split_ifs with hfind <;>
    refine ⟨ht0, ht1, ?_, hh0, hh1, hs0, hs1, he0, he1,
      le_min (by norm_num) (by nlinarith), min_le_left _ _⟩
  · intro c hc
    obtain ⟨c0, hc0, hc0eq⟩ := List.mem_map.mp hc
    by_cases hid : c0.agentId = agentId
    · rw [← hc0eq]
      simp only [hid, if_pos]
      exact ⟨(clamp_mem _).1, (clamp_mem _).2⟩
    · rw [← hc0eq]
      simp only [hid, if_neg, ite_false]
      exact hsc c0 hc0
  · intro c hc
    rcases List.mem_append.mp hc with hold | hnew
    · exact hsc c hold
    · simp only [List.mem_singleton] at hnew
      rw [hnew]
      exact ⟨(clamp_mem _).1, (clamp_mem _).2⟩

/-- C5: the trust-bounds invariant — if an agent's global `trustScore`,
every `socialConnections` entry's `trustLevel` and every `emotionalState`
field lie in [0, 100], then after any finite sequence of
`updateTrustScore` / `updateSocialConnection` calls with arbitrary
rational deltas they all still lie in [0, 100]. -/
theorem trust_bounds_invariant (a : Agent) (ops : List TrustOp)
    (h : a.trustBounded) : (applyTrustOps a ops).trustBounded := by
  induction ops generalizing a with
  | nil => exact h
  | cons op rest ih =>
    rw [applyTrustOps, List.foldl_cons]
    cases op with
    | updateTrust delta action context now =>
      exact ih _ (a.updateTrustScore_bounded delta action context now h)
    | updateSocial agentId trustDelta now =>
      exact ih _ (a.updateSocialConnection_bounded agentId trustDelta now h)

/-- Witness for C5: a concrete in-bounds agent stays in bounds after a
concrete sequence of large positive and negative deltas. -/
theorem trust_bounds_invariant_witness :
    agent8.trustBounded ∧
    (applyTrustOps agent8
      [TrustOp.updateTrust 1000 "help" "ctx" 10,
       TrustOp.updateSocial "9" (-1000) 20,
       TrustOp.updateTrust (-500) "lie" "ctx" 30]).trustBounded := by
  have h0 : agent8.trustBounded := by
    refine ⟨by norm_num [agent8], by norm_num [agent8], ?_, ?_⟩
    · intro c hc
      simp [agent8] at hc
    · norm_num [agent8, es0]
  exact ⟨h0, trust_bounds_invariant agent8 _ h0⟩

theorem Agent.tick_sleeping_stays (b : Agent) (t su : ℚ)
    (hst : b.status = .sleeping) (hsu : b.sleepUntil = some su)
    (hlt : t < su) : b.tick t = b := by
  rw [Agent.tick]
  simp only [hst, hsu, if_pos, ite_true]
  rw [if_neg (by intro hcon; exact absurd hlt (not_lt.mpr hcon.2))]

theorem Agent.tick_wakes (b : Agent) (t su : ℚ)
    (hst : b.status = .sleeping) (hsu : b.sleepUntil = some su)
    (hsu0 : su ≠ 0) (hge : su ≤ t) :
    (b.tick t).status = .idle ∧
    (b.tick t).emotionalState.energy = 100 ∧
    (b.tick t).sleepUntil = none := by
  rw [Agent.tick]
  simp only [hst, hsu, if_pos, ite_true]
  rw [if_pos ⟨hsu0, hge⟩]
  have hnosleep : (b.wakeUp t).shouldSleep t = false := by
    simp [Agent.wakeUp, Agent.shouldSleep]
    norm_num
  simp only [hnosleep, Bool.false_eq_true, if_false, ite_false]
  have hidle : (b.wakeUp t).status = .idle := rfl
  simp only [Agent.wakeUp, Agent.stopWalking]
  split_ifs <;> norm_num

/-- C6: sleep cycle — an awake agent whose `energy` is below 30 goes to
sleep on its next tick (status `sleeping`, `sleepUntil = now + 8 h`);
every subsequent tick that happens strictly before `sleepUntil` leaves
the agent completely unchanged (still sleeping); and on any tick at or
past `sleepUntil` the agent wakes to status `idle` with `energy = 100`
and `sleepUntil` cleared. (`0 ≤ now` says the wall clock is a
timestamp, so the armed `sleepUntil` is nonzero and JS-truthy.) -/
theorem agent_sleep_cycle (a : Agent) (now : ℚ)
    (hawake : a.status ≠ .sleeping)
    (henergy : a.emotionalState.energy < 30) (hnow : 0 ≤ now) :
    ((a.tick now).status = .sleeping ∧
     (a.tick now).sleepUntil = some (now + 28800000)) ∧
    (∀ t : ℚ, t < now + 28800000 → (a.tick now).tick t = a.tick now) ∧
    (∀ t : ℚ, now + 28800000 ≤ t →
      ((a.tick now).tick t).status = .idle ∧
      ((a.tick now).tick t).emotionalState.energy = 100 ∧
      ((a.tick now).tick t).sleepUntil = none) := by
  have hsleep : a.tick now = a.goToSleep now := by
    rw [Agent.tick]
    simp only [hawake, ite_false, if_neg]
    rw [if_pos]
    simp [Agent.shouldSleep, henergy]
  have hst : (a.tick now).status = .sleeping := by rw [hsleep]; rfl
  have hsu : (a.tick now).sleepUntil = some (now + 28800000) := by
    rw [hsleep]; rfl
  refine ⟨⟨hst, hsu⟩, ?_, ?_⟩
  · intro t ht
    exact Agent.tick_sleeping_stays (a.tick now) t (now + 28800000) hst hsu ht
  · intro t ht
    exact Agent.tick_wakes (a.tick now) t (now + 28800000) hst hsu
      (by positivity) ht

/-- Witness for C6: the concrete low-energy agent `agent8` falls asleep
at time 0 and wakes with full energy at `sleepUntil`. -/
theorem agent_sleep_cycle_witness :
    ((agent8.tick 0).status = .sleeping ∧
     (agent8.tick 0).sleepUntil = some 28800000) ∧
    ((agent8.tick 0).tick 10).status = .sleeping ∧
    (((agent8.tick 0).tick 28800000).status = .idle ∧
     ((agent8.tick 0).tick 28800000).emotionalState.energy = 100) := by
  have h := agent_sleep_cycle agent8 0 (by decide)
    (by norm_num [agent8]) le_rfl
  have h1 := h.1
  have h2 := h.2.1 10 (by norm_num)
  have h3 := h.2.2 28800000 (by norm_num)
  refine ⟨by simpa using h1, ?_, by simpa using ⟨h3.1, h3.2.1⟩⟩
  rw [h2]
  simpa using h1.1

/-- C8: `cleanupMemories(maxCount, minImportanceToKeep)` deletes nothing
and returns 0 when the memory count is at most `maxCount`; otherwise it
considers only the overflow (`count - maxCount`) memories of lowest
combined score `importance + age/30days` (every taken memory scores no
higher than every kept one) and deletes exactly those of them whose
importance is strictly below `minImportanceToKeep` — so no memory with
importance at or above `minImportanceToKeep` is ever deleted and at most
`count - maxCount` memories are deleted. -/
theorem cleanupMemories_safety_valve (now : ℚ) (mems : List MemoryDoc)
    (maxMemories : ℕ) (minImportanceToKeep : ℚ) :
    (mems.length ≤ maxMemories →
      cleanupMemories now mems maxMemories minImportanceToKeep = ([], 0)) ∧
    (cleanupMemories now mems maxMemories minImportanceToKeep).2 =
      (cleanupMemories now mems maxMemories minImportanceToKeep).1.length ∧
    (∀ m ∈ (cleanupMemories now mems maxMemories minImportanceToKeep).1,
      m.importance < minImportanceToKeep) ∧
    (cleanupMemories now mems maxMemories minImportanceToKeep).2 ≤
      mems.length - maxMemories ∧
    (maxMemories < mems.length →
      (cleanupMemories now mems maxMemories minImportanceToKeep).1 =
        ((mems.mergeSort
            (fun a b => cleanupScore now a ≤ cleanupScore now b)).take
          (mems.length - maxMemories)).filter
            (fun m => m.importance < minImportanceToKeep) ∧
      ∀ x ∈ (mems.mergeSort
          (fun a b => cleanupScore now a ≤ cleanupScore now b)).take
          (mems.length - maxMemories),
        ∀ y ∈ (mems.mergeSort
            (fun a b => cleanupScore now a ≤ cleanupScore now b)).drop
          (mems.length - maxMemories),
        cleanupScore now x ≤ cleanupScore now y) := by
  by_cases hle : mems.length ≤ maxMemories
  · refine ⟨fun _ => by simp [cleanupMemories, hle], ?_, ?_, ?_, ?_⟩
    · simp [cleanupMemories, hle]
    · simp [cleanupMemories, hle]
    · simp [cleanupMemories, hle]
    · intro hlt; exact absurd hle (not_le.mpr hlt)
  · have hlt : maxMemories < mems.length := not_le.mp hle
    have hsorted : ((mems.mergeSort
        (fun a b => cleanupScore now a ≤ cleanupScore now b))).Sorted
        (fun x y => cleanupScore now x ≤ cleanupScore now y) := by
      have hp := @List.sorted_mergeSort MemoryDoc
        (fun a b => decide (cleanupScore now a ≤ cleanupScore now b))
        (fun a b c hab hbc => by
          simp only [decide_eq_true_eq] at *
          exact le_trans hab hbc)
        (fun a b => by
          simp only [Bool.or_eq_true, decide_eq_true_eq]
          exact le_total _ _)
        mems
      exact hp.imp (fun h => by simpa using h)
    refine ⟨fun h => absurd h hle, ?_, ?_, ?_, fun _ => ⟨?_, ?_⟩⟩
    · simp [cleanupMemories, hle]
    · intro m hm
      simp only [cleanupMemories, hle, ite_false, if_neg, not_le] at hm
      exact of_decide_eq_true (List.mem_filter.mp hm).2
    · simp only [cleanupMemories, hle, ite_false, if_neg, not_le]
      calc (((mems.mergeSort _).take (mems.length - maxMemories)).filter
              (fun m => decide (m.importance < minImportanceToKeep))).length
          ≤ ((mems.mergeSort _).take (mems.length - maxMemories)).length :=
            List.length_filter_le _ _
        _ ≤ mems.length - maxMemories := List.length_take_le _ _
    · simp [cleanupMemories, hle]
    · intro x hx y hy
      exact List.Sorted.rel_of_mem_take_of_mem_drop hsorted hx hy

/-- Witness for C8: with two memories and a cap of one, only the
unimportant stale memory is deleted. -/
theorem cleanupMemories_safety_valve_witness :
    (∀ m ∈ (cleanupMemories 0 mems8 1 3).1, m.importance < 3) ∧
    (cleanupMemories 0 mems8 1 3).2 ≤ mems8.length - 1 :=
  ⟨(cleanupMemories_safety_valve 0 mems8 1 3).2.2.1,
   (cleanupMemories_safety_valve 0 mems8 1 3).2.2.2.1⟩

theorem AList.get_set_eq {α : Type} (l : List (String × α)) (k : String)
    (v : α) : AList.get (AList.set l k v) k = some v := by
  induction l with
  | nil => simp [AList.set, AList.get]
  | cons e t ih =>
    obtain ⟨k', v'⟩ := e
    by_cases h : k' = k
    · simp [AList.set, AList.get, h]
    · simp [AList.set, AList.get, h, ih]

theorem World.setEntityConversationId_self (w : World) (id : String)
    (v : Option String) (h : (w.entityConversationId id).isSome) :
    (w.setEntityConversationId id v).entityConversationId id = some v := by
  rw [World.setEntityConversationId]
  cases hp : AList.get w.players id with
  | some p =>
    simp [hp, World.entityConversationId, AList.get_update_eq]
  | none =>
    cases ha : AList.get w.agents id with
    | some a =>
      simp [World.entityConversationId, hp, ha, AList.get_update_eq]
    | none =>
      rw [World.entityConversationId] at h
      simp [hp, ha] at h

theorem World.setEntityConversationId_other (w : World) (id id' : String)
    (v : Option String) (h : id' ≠ id) :
    (w.setEntityConversationId id v).entityConversationId id' =
      w.entityConversationId id' := by
  rw [World.setEntityConversationId]
  split_ifs with h1 h2
  · simp [World.entityConversationId, AList.get_update_ne _ _ _ _ h]
  · simp [World.entityConversationId, AList.get_update_ne _ _ _ _ h]
  · rfl

/-- Counterexample to C1: in a world with the two free players "0" and
"1" (neither in any conversation), `World.startConversation` produces a
conversation whose status is `waiting`, not `active` —
`Conversation.create` computes the status from the unfiltered invite list
`[creatorId, inviteeId]` of length 2. -/
theorem startConversation_not_active_counterexample :
    w1c.entityConversationId "0" = some none ∧
    w1c.entityConversationId "1" = some none ∧
    (World.startConversation w1c "0" "1" 1000).map
      (fun r => r.2.status) = .ok .waiting ∧
    CStatus.waiting ≠ CStatus.active :=
  ⟨rfl, rfl, rfl, by decide⟩

theorem World.entityConversationId_irrelevant (w : World) (n : ℕ) (lv : ℚ)
    (cs : List (String × Conversation)) (id : String) :
    (World.mk n lv w.players w.agents cs).entityConversationId id =
      w.entityConversationId id := rfl

/-- C1 (amended): for two distinct free entities, `World.startConversation`
succeeds but yields a conversation in status `waiting` (not `active`)
whose participants list holds only the creator, with the invitee merely
invited; both entities' `conversationId` fields are set. If either of the
two then leaves (`Conversation.leave`, as dispatched by the
`leaveConversation` command), the conversation immediately has status
`ended` — but neither entity's `conversationId` is cleared by the leave
(clearing happens only in `World.endConversation`, and only for ids still
listed as participants). -/
theorem startConversation_lifecycle_amended (w : World) (cid iid : String)
    (now : ℚ) (hne : cid ≠ iid)
    (hc : w.entityConversationId cid = some none)
    (hi : w.entityConversationId iid = some none) :
    ∃ w' conv, w.startConversation cid iid now = .ok (w', conv) ∧
      conv.status = .waiting ∧
      conv.participants = [cid] ∧
      conv.invited = [iid] ∧
      w'.entityConversationId cid = some (some conv.id) ∧
      w'.entityConversationId iid = some (some conv.id) ∧
      AList.get w'.conversations conv.id = some conv ∧
      (∀ pid ∈ [cid, iid], ∀ now2 : ℚ,
        (conv.leave pid now2).status = .ended) ∧
      (∀ (e : EngineRec) (now2 : ℚ), ∃ w3,
        handleInput e w' (.leaveConversation cid conv.id) now2 =
          .ok (e, w3, [], .leftConversation conv.id) ∧
        AList.get w3.conversations conv.id = some (conv.leave cid now2) ∧
        (conv.leave cid now2).status = .ended ∧
        w3.entityConversationId cid = some (some conv.id) ∧
        w3.entityConversationId iid = some (some conv.id)) := by
  have hine : iid ≠ cid := fun h => hne h.symm
  set k1 := toString w.nextId with hk1
  set conv1 := Conversation.create k1 cid [cid, iid] now with hconv1
  set w1 : World := World.mk (w.nextId + 1) w.lastViewed w.players w.agents
    (AList.set w.conversations k1 conv1) with hw1
  set w2 : World :=
    (w1.setEntityConversationId cid (some k1)).setEntityConversationId iid
      (some k1) with hw2
  have hconvid : conv1.id = k1 := rfl
  have hW1c : w1.entityConversationId cid = some none := hc
  have hW1i : w1.entityConversationId iid = some none := hi
  have hecid : w2.entityConversationId cid = some (some k1) := by
    rw [hw2, World.setEntityConversationId_other _ iid cid _ hne]
    exact World.setEntityConversationId_self _ _ _ (by rw [hW1c]; rfl)
  have heiid : w2.entityConversationId iid = some (some k1) := by
    rw [hw2]
    refine World.setEntityConversationId_self _ _ _ ?_
    rw [World.setEntityConversationId_other _ cid iid _ hine, hW1i]
    rfl
  have hgetc : AList.get w2.conversations conv1.id = some conv1 := by
    rw [hw2, World.setEntityConversationId_conversations,
      World.setEntityConversationId_conversations, hw1, hconvid]
    exact AList.get_set_eq _ _ _
  have hleave : ∀ pid ∈ [cid, iid], ∀ now2 : ℚ,
      (conv1.leave pid now2).status = .ended := by
    intro pid hpid now2
    rcases List.mem_pair.mp hpid with h | h <;> subst h
    · simp [hconv1, Conversation.leave, Conversation.create]
    · simp [hconv1, Conversation.leave, Conversation.create, hne]
  refine ⟨w2, conv1, ?_, rfl, rfl, ?_, ?_, ?_, hgetc, hleave, ?_⟩
  · rw [World.startConversation, hc, hi]
    rfl
  · simp [hconv1, Conversation.create, hine]
  · rw [hconvid]; exact hecid
  · rw [hconvid]; exact heiid
  · intro e now2
    refine ⟨World.mk w2.nextId w2.lastViewed w2.players w2.agents
      (AList.update w2.conversations conv1.id (fun _ => conv1.leave cid now2)),
      ?_, ?_, ?_, ?_, ?_⟩
    · simp only [handleInput, hgetc]
    · rw [AList.get_update_eq, hgetc]
      rfl
    · exact hleave cid (by simp) now2
    · rw [hconvid]; exact hecid
    · rw [hconvid]; exact heiid

/-- Witness for C1 (amended) at the concrete world `w1c`. -/
theorem startConversation_lifecycle_amended_witness :
    w1c.entityConversationId "0" = some none ∧
    w1c.entityConversationId "1" = some none ∧
    ∃ w' conv, w1c.startConversation "0" "1" 1000 = .ok (w', conv) ∧
      conv.status = .waiting ∧ ∀ now2 : ℚ,
        (conv.leave "0" now2).status = .ended := by
  refine ⟨rfl, rfl, ?_⟩
  obtain ⟨w', conv, h1, h2, _, _, _, _, _, h8, _⟩ :=
    startConversation_lifecycle_amended w1c "0" "1" 1000 (by decide) rfl rfl
  exact ⟨w', conv, h1, h2, fun now2 => h8 "0" (by simp) now2⟩

/-- Counterexample to C3: the membership invariant holds in the fresh
world `w1c`, yet after `World.startConversation` it is violated — the
creator "0" has `conversationId = some "2"` while its status is still
`idle` (never set to `talking`), and the invitee is not even a
participant. -/
theorem membership_invariant_counterexample :
    World.entityInvariant w1c ∧
    (World.startConversation w1c "0" "1" 1000).map (fun r => r.1) =
      .ok w1cAfter ∧
    ¬ World.entityInvariant w1cAfter := by
  refine ⟨⟨?_, ?_⟩, rfl, ?_⟩
  · intro pid p hp
    simp only [w1c, AList.get] at hp
    split_ifs at hp with h0 h1
    · cases hp
      exact ⟨by simp [pA, Player.create], by simp [pA, Player.create]⟩
    · cases hp
      exact ⟨by simp [pB, Player.create], by simp [pB, Player.create]⟩
  · intro aid a ha
    cases ha
  · intro h
    have hget : AList.get w1cAfter.players "0" =
        some { pA with conversationId := some "2" } := rfl
    have h1 := (h.1 "0" _ hget).1
    have h2 : ({ pA with conversationId := some "2" } : Player).status
        = .talking := h1.mp (by simp)
    simp [pA, Player.create] at h2

theorem World.setEntityConversationId_player_status (w : World)
    (id : String) (v : Option String) (pid : String) (p' : Player)
    (h : AList.get (w.setEntityConversationId id v).players pid = some p') :
    ∃ p, AList.get w.players pid = some p ∧ p'.status = p.status := by
  rw [World.setEntityConversationId] at h
  split_ifs at h with h1 h2
  · by_cases hpid : pid = id
    · subst hpid
      rw [AList.get_update_eq] at h
      cases hgp : AList.get w.players pid with
      | none => rw [hgp] at h; cases h
      | some p =>
        rw [hgp] at h
        exact ⟨p, rfl, by rw [← Option.some_inj.mp h]⟩
    · rw [AList.get_update_ne _ _ _ _ hpid] at h
      exact ⟨p', h, rfl⟩
  · exact ⟨p', h, rfl⟩
  · exact ⟨p', h, rfl⟩

theorem World.setEntityConversationId_agent_status (w : World)
    (id : String) (v : Option String) (aid : String) (a' : Agent)
    (h : AList.get (w.setEntityConversationId id v).agents aid = some a') :
    ∃ a, AList.get w.agents aid = some a ∧ a'.status = a.status := by
  rw [World.setEntityConversationId] at h
  split_ifs at h with h1 h2
  · exact ⟨a', h, rfl⟩
  · by_cases haid : aid = id
    · subst haid
      rw [AList.get_update_eq] at h
      cases hga : AList.get w.agents aid with
      | none => rw [hga] at h; cases h
      | some a =>
        rw [hga] at h
        exact ⟨a, rfl, by rw [← Option.some_inj.mp h]⟩
    · rw [AList.get_update_ne _ _ _ _ haid] at h
      exact ⟨a', h, rfl⟩
  · exact ⟨a', h, rfl⟩

/-- C3 (amended): the membership invariant is NOT preserved by the cited
operations. `Player.leaveConversation` / `Agent.leaveConversation` do
restore the conversation-free state (`conversationId = none`, status
`idle`), but `Player.joinConversation` / `Agent.joinConversation` end
with status `idle` — the `stopWalking()` call inside them overwrites the
just-assigned `talking` — while `conversationId` stays set; and
`World.startConversation` sets both parties' `conversationId` while
changing no entity's status at all and listing only the creator as a
participant. -/
theorem membership_invariant_amended :
    (∀ (p : Player) (cid : String) (now : ℚ),
      (p.joinConversation cid now).conversationId = some cid ∧
      (p.joinConversation cid now).status = .idle) ∧
    (∀ (p : Player) (now : ℚ),
      (p.leaveConversation now).conversationId = none ∧
      (p.leaveConversation now).status = .idle) ∧
    (∀ (a : Agent) (cid : String) (now : ℚ),
      (a.joinConversation cid now).conversationId = some cid ∧
      (a.joinConversation cid now).status = .idle) ∧
    (∀ (a : Agent) (now : ℚ),
      (a.leaveConversation now).conversationId = none ∧
      (a.leaveConversation now).status = .idle) ∧
    (∀ (w : World) (cid iid : String) (now : ℚ) (w' : World)
        (conv : Conversation),
      w.startConversation cid iid now = .ok (w', conv) →
      conv.participants = [cid] ∧
      (∀ pid p', AList.get w'.players pid = some p' →
        ∃ p, AList.get w.players pid = some p ∧ p'.status = p.status) ∧
      (∀ aid a', AList.get w'.agents aid = some a' →
        ∃ a, AList.get w.agents aid = some a ∧ a'.status = a.status)) := by
  refine ⟨fun p cid now => ⟨rfl, rfl⟩, fun p now => ⟨rfl, rfl⟩,
    fun a cid now => ⟨rfl, rfl⟩, fun a now => ⟨rfl, rfl⟩, ?_⟩
  intro w cid iid now w' conv h
  rw [World.startConversation] at h
  cases hec : w.entityConversationId cid with
  | none =>
    cases hei : w.entityConversationId iid with
    | none => rw [hec, hei] at h; cases h
    | some ei => rw [hec, hei] at h; cases h
  | some ec =>
    cases hei : w.entityConversationId iid with
    | none => rw [hec, hei] at h; cases h
    | some ei =>
      rw [hec, hei] at h
      dsimp only at h
      split_ifs at h with htr
      cases h
      refine ⟨rfl, ?_, ?_⟩
      · intro pid p' hp'
        obtain ⟨p1, hp1, hs1⟩ :=
          World.setEntityConversationId_player_status _ _ _ _ _ hp'
        obtain ⟨p0, hp0, hs0⟩ :=
          World.setEntityConversationId_player_status _ _ _ _ _ hp1
        exact ⟨p0, hp0, hs1.trans hs0⟩
      · intro aid a' ha'
        obtain ⟨a1, ha1, hs1⟩ :=
          World.setEntityConversationId_agent_status _ _ _ _ _ ha'
        obtain ⟨a0, ha0, hs0⟩ :=
          World.setEntityConversationId_agent_status _ _ _ _ _ ha1
        exact ⟨a0, ha0, hs1.trans hs0⟩

/-- Witness for C3 (amended) at concrete inputs: joining sets the id but
leaves the player idle, and after the concrete `startConversation` the
creator's status is unchanged. -/
theorem membership_invariant_amended_witness :
    ((pA.joinConversation "2" 5).conversationId = some "2" ∧
     (pA.joinConversation "2" 5).status = .idle) ∧
    (∃ p, AList.get w1c.players "0" = some p ∧
      ({ pA with conversationId := some "2" } : Player).status = p.status) := by
  refine ⟨membership_invariant_amended.1 pA "2" 5, ?_⟩
  have h := (membership_invariant_amended.2.2.2.2 w1c "0" "1" 1000 w1cAfter
    (Conversation.create "2" "0" ["0", "1"] 1000) rfl).2.1
  exact h "0" { pA with conversationId := some "2" } rfl

/-- Counterexample to C9: `agentSendMessage` with the `leaveConversation`
flag also flips the agent's status (from `talking` to `idle`) — an effect
beyond the claimed "only lastActivity and conversationId". -/
theorem agentSendMessage_counterexample :
    agent7.status = .talking ∧
    (handleInput e2 w9 (.agentSendMessage "7" "bye" "u9" (some true)) 5000).map
      (fun r => (AList.get r.2.1.agents "7").map (fun a => a.status)) =
      .ok (some .idle) :=
  ⟨rfl, rfl⟩

/-- C9 (amended): for every agent holding a (nonempty) `conversationId`,
the `agentSendMessage` command succeeds regardless of the target
conversation's status, participants or current speaker — the conversation
map (indeed the whole world except this one agent) is untouched and the
pointed-to conversation need not even exist. The only effects are the
inserted message record and, on the agent itself, the `lastActivity`
stamp — plus, when the `leaveConversation` flag is truthy, clearing
`conversationId` AND resetting the status to `idle` (the effect the
original claim omits). -/
theorem agentSendMessage_bypasses_turns (e : EngineRec) (w : World)
    (agentId text uuid : String) (flag : Option Bool) (now : ℚ)
    (a : Agent) (cidv : String)
    (ha : AList.get w.agents agentId = some a)
    (hcid : a.conversationId = some cidv) (hcid0 : cidv ≠ "") :
    ∃ w' m, handleInput e w (.agentSendMessage agentId text uuid flag) now =
        .ok (e, w', [m], .agentMessageSent agentId) ∧
      m = ⟨cidv, uuid, a.id, text⟩ ∧
      w'.conversations = w.conversations ∧
      w'.players = w.players ∧
      w'.nextId = w.nextId ∧
      w'.lastViewed = w.lastViewed ∧
      AList.get w'.agents agentId = some (if jsTruthyB flag then
        { a with lastActivity := now, conversationId := none,
                 status := .idle }
        else { a with lastActivity := now }) ∧
      (∀ aid, aid ≠ agentId →
        AList.get w'.agents aid = AList.get w.agents aid) := by
  have hsend : a.sendMessage text uuid flag now =
      .ok ((if jsTruthyB flag then
        { a with lastActivity := now, conversationId := none,
                 status := .idle }
        else { a with lastActivity := now }), ⟨cidv, uuid, a.id, text⟩) := by
    rw [Agent.sendMessage]
    rw [hcid]
    dsimp only
    rw [if_neg hcid0]
    by_cases hf : jsTruthyB flag
    · simp only [hf, if_true, ite_true]
      rfl
    · simp only [hf, if_false, ite_false, Bool.false_eq_true]
  refine ⟨World.mk w.nextId w.lastViewed w.players
      (AList.update w.agents agentId (fun _ =>
        if jsTruthyB flag then
          { a with lastActivity := now, conversationId := none,
                   status := .idle }
        else { a with lastActivity := now }))
      w.conversations,
    ⟨cidv, uuid, a.id, text⟩, ?_, rfl, rfl, rfl, rfl, rfl, ?_, ?_⟩
  · simp only [handleInput, ha, hsend]
  · dsimp only
    rw [AList.get_update_eq, ha]
    rfl
  · intro aid haid
    dsimp only
    exact AList.get_update_ne _ _ _ _ haid

/-- For C2 (code bug): a failing command's error is computed by
`processInput` (it does not crash the step, and a later command in the
batch is still processed), but the main tick mutation then writes
`returnValue = {kind:'ok', value: outputs-or-null}` — the same aggregated
value — to every record of the batch: the failing `sendMessage` for the
unknown player "99" gets `{ok, null}` alone, and when a succeeding `join`
follows it gets `{ok, [join output]}` instead of its `{error}`. -/
theorem inputWriteback_always_ok :
    (processInput e2 w2empty (.sendMessage "99" "hi" "u1") 1000).2.2.2 =
      .error "Player 99 not found" ∧
    (mainTick e2 [rec2] w2empty 1000).2.1 =
      [{ rec2 with returnValue := some (.ok none) }] ∧
    (mainTick e2 [rec2, rec2b] w2empty 1000).2.1 =
      [{ rec2 with returnValue := some (.ok (some [.joined "0"])) },
       { rec2b with returnValue := some (.ok (some [.joined "0"])) }] :=
  ⟨rfl, rfl, rfl⟩

/-- Witness for C9 (amended) at the concrete world `w9`. -/
theorem agentSendMessage_bypasses_turns_witness :
    AList.get w9.agents "7" = some agent7 ∧
    agent7.conversationId = some "2" ∧
    ∃ w' m, handleInput e2 w9 (.agentSendMessage "7" "hello" "u8" none) 4000 =
      .ok (e2, w', [m], .agentMessageSent "7") ∧
      w'.conversations = w9.conversations := by
  refine ⟨rfl, rfl, ?_⟩
  obtain ⟨w', m, h1, _, h3, _⟩ := agentSendMessage_bypasses_turns e2 w9 "7"
    "hello" "u8" none 4000 agent7 "2" rfl rfl (by decide)
  exact ⟨w', m, h1, h3⟩

theorem distPt_nonneg (a b : Pt) : 0 ≤ distPt a b := Real.sqrt_nonneg _

theorem distPt_eq_zero {a b : Pt} (h : distPt a b = 0) : a = b := by
  obtain ⟨a1, a2⟩ := a
  obtain ⟨b1, b2⟩ := b
  rw [distPt] at h
  have h1 : (0:ℝ) ≤ (b1 - a1) * (b1 - a1) := mul_self_nonneg _
  have h2 : (0:ℝ) ≤ (b2 - a2) * (b2 - a2) := mul_self_nonneg _
  have hs := Real.sqrt_eq_zero'.mp h
  simp only [Prod.mk.injEq]
  constructor <;> nlinarith

theorem distPt_scale (x0 d : Pt) (c : ℝ) (hc : 0 ≤ c) :
    distPt (d.1 - c * (d.1 - x0.1), d.2 - c * (d.2 - x0.2)) d =
      c * distPt x0 d := by
  rw [distPt, distPt]
  have hrw : (d.1 - (d.1 - c * (d.1 - x0.1))) * (d.1 - (d.1 - c * (d.1 - x0.1)))
      + (d.2 - (d.2 - c * (d.2 - x0.2))) * (d.2 - (d.2 - c * (d.2 - x0.2)))
      = c ^ 2 * ((d.1 - x0.1) * (d.1 - x0.1) + (d.2 - x0.2) * (d.2 - x0.2)) := by
    ring
  rw [hrw, Real.sqrt_mul (sq_nonneg c), Real.sqrt_sq hc]

theorem distPt_ptAt (x0 d : Pt) (r : ℝ) (hr : 0 ≤ r)
    (hD : distPt x0 d ≠ 0) :
    distPt (ptAt x0 d (distPt x0 d) r) d = r := by
  have hDpos : 0 < distPt x0 d :=
    lt_of_le_of_ne (distPt_nonneg _ _) (Ne.symm hD)
  rw [ptAt, distPt_scale x0 d _ (div_nonneg hr hDpos.le)]
  field_simp

theorem ptAt_full (x0 d : Pt) (hD : distPt x0 d ≠ 0) :
    ptAt x0 d (distPt x0 d) (distPt x0 d) = x0 := by
  rw [ptAt, div_self hD]
  obtain ⟨a1, a2⟩ := x0
  obtain ⟨b1, b2⟩ := d
  simp only [Prod.mk.injEq]
  constructor <;> ring

theorem tick_walkSt (s : Player) (d x : Pt) (now : ℚ) (hw : WalkSt d x s) :
    s.tick now =
      if distPt x d < 0.1 then
        { s with position := d, pathfinding := none, status := .idle,
                 lastActivity := now }
      else
        { s with position := (x.1 + (d.1 - x.1) / distPt x d * 0.016,
                              x.2 + (d.2 - x.2) / distPt x d * 0.016),
                 facing := ((d.1 - x.1) / distPt x d, (d.2 - x.2) / distPt x d),
                 lastActivity := now } := by
  obtain ⟨hst, hpf, hsp, hpos⟩ := hw
  rw [Player.tick]
  simp only [hst, hpf]
  norm_num [List.getD, hpos, hsp]
  rw [show Real.sqrt ((d.1 - x.1) * (d.1 - x.1) + (d.2 - x.2) * (d.2 - x.2))
      = distPt x d from rfl]
  split_ifs with h
  · rfl
  · rfl

theorem tick_walk_far (s : Player) (d x : Pt) (now : ℚ)
    (hw : WalkSt d x s) (hfar : 0.1 ≤ distPt x d) :
    WalkSt d (x.1 + (d.1 - x.1) / distPt x d * 0.016,
              x.2 + (d.2 - x.2) / distPt x d * 0.016) (s.tick now) := by
  rw [tick_walkSt s d x now hw, if_neg (not_lt.mpr hfar)]
  obtain ⟨hst, hpf, hsp, hpos⟩ := hw
  exact ⟨hst, hpf, hsp, rfl⟩

theorem tick_walk_near (s : Player) (d x : Pt) (now : ℚ)
    (hw : WalkSt d x s) (hnear : distPt x d < 0.1) :
    (s.tick now).status = .idle ∧ (s.tick now).pathfinding = none ∧
    (s.tick now).position = d := by
  rw [tick_walkSt s d x now hw, if_pos hnear]
  exact ⟨rfl, rfl, rfl⟩

theorem tick_idle (s : Player) (now : ℚ) (h : s.status = .idle) :
    (s.tick now).status = .idle ∧ (s.tick now).pathfinding = s.pathfinding ∧
    (s.tick now).position = s.position := by
  rw [Player.tick]
  cases hpf : s.pathfinding <;> simp [h, hpf]

theorem walk_invariant (p : Player) (d : Pt) (t0 : ℚ) (times : ℕ → ℚ)
    (hspeed : p.speed = 1) (hD : distPt p.position d ≠ 0) (k : ℕ)
    (hj : ∀ j : ℕ, j < k → 0.1 ≤ distPt p.position d - 0.016 * j) :
    WalkSt d (ptAt p.position d (distPt p.position d)
        (distPt p.position d - 0.016 * k))
      (iterTicks (p.walkTo d t0) times k) := by
  induction k with
  | zero =>
    refine ⟨rfl, rfl, hspeed, ?_⟩
    rw [iterTicks]
    show p.position = _
    rw [show (distPt p.position d - 0.016 * ((0:ℕ):ℝ) : ℝ)
        = distPt p.position d by push_cast; ring]
    exact (ptAt_full p.position d hD).symm
  | succ k ih =>
    have hk := ih (fun j hjk => hj j (Nat.lt_succ_of_lt hjk))
    have hrk : (0.1:ℝ) ≤ distPt p.position d - 0.016 * k :=
      hj k (Nat.lt_succ_self k)
    set D := distPt p.position d with hDdef
    set r := D - 0.016 * (k:ℝ) with hrdef
    have hr0 : (0:ℝ) ≤ r := le_trans (by norm_num) hrk
    have hrne : r ≠ 0 := ne_of_gt (lt_of_lt_of_le (by norm_num) hrk)
    have hdist : distPt (ptAt p.position d D r) d = r :=
      distPt_ptAt _ _ _ hr0 hD
    have hstep := tick_walk_far _ d _ (times k) hk (by rw [hdist]; exact hrk)
    rw [iterTicks]
    refine ⟨hstep.1, hstep.2.1, hstep.2.2.1, ?_⟩
    rw [hstep.2.2.2, hdist]
    simp only [ptAt]
    push_cast
    simp only [Prod.mk.injEq]
    constructor
    · field_simp
      ring
    · field_simp
      ring

theorem walk_arrived_stable (p : Player) (d : Pt) (t0 : ℚ) (times : ℕ → ℚ)
    (n : ℕ)
    (hn : (iterTicks (p.walkTo d t0) times n).status = .idle ∧
      (iterTicks (p.walkTo d t0) times n).pathfinding = none ∧
      (iterTicks (p.walkTo d t0) times n).position = d) :
    ∀ k, n ≤ k →
      (iterTicks (p.walkTo d t0) times k).status = .idle ∧
      (iterTicks (p.walkTo d t0) times k).pathfinding = none ∧
      (iterTicks (p.walkTo d t0) times k).position = d := by
  intro k hk
  induction k, hk using Nat.le_induction with
  | base => exact hn
  | succ k hk ih =>
    rw [iterTicks]
    obtain ⟨h1, h2, h3⟩ := tick_idle _ (times k) ih.1
    exact ⟨h1, h2.trans ih.2.1, h3.trans ih.2.2⟩

/-- C7 (amended): pathfinding convergence holds for Players — a
unit-speed player given `walkTo(d)` and ticked repeatedly with the fixed
16 ms step reaches position exactly `d` within
`⌈distance / (speed · 0.016)⌉` ticks (`distance` the initial
straight-line distance to `d`), and on every tick after that it is `idle`
with `pathfinding` cleared and position still `d`. The `speed = 1`
hypothesis is the value `Player.create` always assigns (nothing in the
code ever changes it). For Agents the original claim fails —
`Agent.tick` evaluates the sleep trigger before movement — see the
accompanying counterexample. -/
theorem pathfinding_convergence (p : Player) (d : Pt) (t0 : ℚ)
    (times : ℕ → ℚ) (hspeed : p.speed = 1) :
    (iterTicks (p.walkTo d t0) times
      ⌈distPt p.position d / (p.speed * 0.016)⌉₊).position = d ∧
    ∀ k, ⌈distPt p.position d / (p.speed * 0.016)⌉₊ + 1 ≤ k →
      (iterTicks (p.walkTo d t0) times k).status = .idle ∧
      (iterTicks (p.walkTo d t0) times k).pathfinding = none ∧
      (iterTicks (p.walkTo d t0) times k).position = d := by
  rw [hspeed, one_mul]
  have hD0 : 0 ≤ distPt p.position d := distPt_nonneg _ _
  rcases eq_or_lt_of_le hD0 with hzero | hpos
  · -- degenerate case: already standing at the destination
    have hxd : p.position = d := distPt_eq_zero hzero.symm
    have hN : ⌈distPt p.position d / 0.016⌉₊ = 0 := by
      rw [← hzero]
      norm_num
    have harr1 : (iterTicks (p.walkTo d t0) times 1).status = .idle ∧
        (iterTicks (p.walkTo d t0) times 1).pathfinding = none ∧
        (iterTicks (p.walkTo d t0) times 1).position = d := by
      rw [show (1:ℕ) = 0 + 1 from rfl, iterTicks, iterTicks]
      exact tick_walk_near _ d p.position (times 0) ⟨rfl, rfl, hspeed, rfl⟩
        (by rw [← hzero]; norm_num)
    refine ⟨?_, ?_⟩
    · rw [hN, iterTicks]
      exact hxd
    · intro k hk
      rw [hN] at hk
      exact walk_arrived_stable p d t0 times 1 harr1 k hk
  · -- positive distance
    have hDne : distPt p.position d ≠ 0 := ne_of_gt hpos
    have hex : ∃ k : ℕ, distPt p.position d - 0.016 * k < 0.1 := by
      obtain ⟨n, hn⟩ := exists_nat_gt (distPt p.position d / 0.016)
      refine ⟨n, ?_⟩
      have h16 : (0:ℝ) < 0.016 := by norm_num
      have := (div_lt_iff₀ h16).mp hn
      linarith
    haveI : DecidablePred
        (fun k : ℕ => distPt p.position d - 0.016 * k < 0.1) :=
      fun _ => Classical.dec _
    set m := Nat.find hex with hmdef
    have hm : distPt p.position d - 0.016 * m < 0.1 := Nat.find_spec hex
    have hmin : ∀ j, j < m → 0.1 ≤ distPt p.position d - 0.016 * j :=
      fun j hj => not_lt.mp (Nat.find_min hex hj)
    have hwm := walk_invariant p d t0 times hspeed hDne m hmin
    have hrm0 : (0:ℝ) ≤ distPt p.position d - 0.016 * m := by
      cases hmc : m with
      | zero => push_cast; linarith
      | succ j =>
        have := hmin j (by rw [hmc]; exact Nat.lt_succ_self j)
        push_cast
        push_cast at this
        linarith
    have hdist : distPt (ptAt p.position d (distPt p.position d)
        (distPt p.position d - 0.016 * m)) d =
        distPt p.position d - 0.016 * m :=
      distPt_ptAt _ _ _ hrm0 hDne
    have harr : (iterTicks (p.walkTo d t0) times (m + 1)).status = .idle ∧
        (iterTicks (p.walkTo d t0) times (m + 1)).pathfinding = none ∧
        (iterTicks (p.walkTo d t0) times (m + 1)).position = d := by
      rw [iterTicks]
      exact tick_walk_near _ d _ (times m) hwm (by rw [hdist]; exact hm)
    have hmN : m + 1 ≤ ⌈distPt p.position d / 0.016⌉₊ := by
      have h16 : (0:ℝ) < 0.016 := by norm_num
      cases hmc : m with
      | zero =>
        have : 0 < ⌈distPt p.position d / 0.016⌉₊ :=
          Nat.ceil_pos.mpr (by positivity)
        omega
      | succ j =>
        have hj := hmin j (by rw [hmc]; exact Nat.lt_succ_self j)
        have hkey : ((j:ℝ) + 2) ≤ distPt p.position d / 0.016 := by
          rw [le_div_iff₀ h16]
          linarith
        have hle := hkey.trans (Nat.le_ceil _)
        have : ((j + 2 : ℕ) : ℝ) ≤ (⌈distPt p.position d / 0.016⌉₊ : ℝ) := by
          push_cast
          exact hle
        exact_mod_cast this
    have hstable := walk_arrived_stable p d t0 times (m + 1) harr
    refine ⟨(hstable _ hmN).2.2, fun k hk => hstable k (by omega)⟩

/-- Witness for C7 at a concrete walk: the fresh player at the origin
walking to (1, 0). -/
theorem pathfinding_convergence_witness :
    (Player.create "3" "Walker" "f5" 0).speed = 1 ∧
    (iterTicks p7 (fun _ => 0)
      ⌈distPt (Player.create "3" "Walker" "f5" 0).position (1, 0) /
        ((Player.create "3" "Walker" "f5" 0).speed * 0.016)⌉₊).position
      = (1, 0) := by
  refine ⟨rfl, ?_⟩
  have h := pathfinding_convergence (Player.create "3" "Walker" "f5" 0)
    (1, 0) 0 (fun _ => 0) rfl
  exact h.1

theorem agent8_walk_sleeps :
    (agent8.walkTo (1, 0) 0).tick 0 = agent8Slept := by
  rw [Agent.tick]
  simp [Agent.walkTo, agent8, Agent.shouldSleep, Agent.goToSleep,
    agent8Slept, min_def]
  norm_num

theorem agent8_stays_asleep : ∀ k : ℕ, 1 ≤ k →
    iterTicksAgent (agent8.walkTo (1, 0) 0) (fun _ => 0) k = agent8Slept := by
  intro k hk
  induction k, hk using Nat.le_induction with
  | base =>
    rw [show (1:ℕ) = 0 + 1 from rfl, iterTicksAgent, iterTicksAgent]
    exact agent8_walk_sleeps
  | succ k hk ih =>
    rw [iterTicksAgent, ih]
    exact Agent.tick_sleeping_stays agent8Slept 0 28800000 rfl rfl
      (by norm_num)

/-- Counterexample to C7: the claim quantifies over Agents as well, and
there it fails on the code — `Agent.tick` evaluates the sleep trigger
before the movement step, so the awake agent `agent8` (energy 25 < 30)
told to `walkTo (1, 0)` falls asleep on its very next tick without
moving. Its position never reaches (1, 0), not within the claimed
`⌈distance / (speed · 0.016)⌉` ticks nor ever, and at no tick count is
it `idle` with `pathfinding` cleared. -/
theorem pathfinding_convergence_counterexample :
    agent8.emotionalState.energy < 30 ∧
    agent8.status = .idle ∧
    agent8.speed = 1 ∧
    (agent8.walkTo (1, 0) 0).status = .walking ∧
    ¬ (∃ k, k ≤ ⌈distPt agent8.position (1, 0) / (agent8.speed * 0.016)⌉₊ ∧
        (iterTicksAgent (agent8.walkTo (1, 0) 0) (fun _ => 0) k).position
          = (1, 0)) ∧
    ¬ (∃ k, (iterTicksAgent (agent8.walkTo (1, 0) 0) (fun _ => 0) k).status
          = .idle ∧
        (iterTicksAgent (agent8.walkTo (1, 0) 0) (fun _ => 0) k).pathfinding
          = none) := by
  refine ⟨by norm_num [agent8], rfl, rfl, rfl, ?_, ?_⟩
  · rintro ⟨k, -, hpos⟩
    cases k with
    | zero =>
      have h1 : (0:ℝ) = 1 := congrArg Prod.fst hpos
      exact absurd h1 (by norm_num)
    | succ k =>
      rw [agent8_stays_asleep (k + 1) (by omega)] at hpos
      have h1 : (0:ℝ) = 1 := congrArg Prod.fst hpos
      exact absurd h1 (by norm_num)
  · rintro ⟨k, hst, -⟩
    cases k with
    | zero =>
      have hw : AStatus.walking = AStatus.idle := hst
      cases hw
    | succ k =>
      rw [agent8_stays_asleep (k + 1) (by omega)] at hst
      have hs : AStatus.sleeping = AStatus.idle := hst
      cases hs
